import Mathlib

/-!
# dhcpcd: the raw IP/UDP packet codec of `net.c`

A shallow embedding of `checksum`, `make_udp_packet`, `get_udp_data` and
`valid_udp_packet` from `src/net.c`, and theorems about them.

Memory is a list of octets.  A C object of type `struct udp_dhcp_packet` is the
list of its `sizeof` octets, fields are read and written at their byte offsets.
A `uint16_t` value is a natural number below `65536`, laid out in memory
according to the byte order of the host, which is a parameter.
-/

namespace Dhcpcd

/-- One octet of memory (`uint8_t`). -/
abbrev Byte := Fin 256

/-- The octet holding the low eight bits of `n` (conversion to `uint8_t`). -/
def byte (n : Nat) : Byte := ⟨n % 256, Nat.mod_lt n (by decide)⟩

/-- What the two source files leave to the build: the byte order of the host and
the declarations of `dhcp.h` that `net.c` uses (`struct dhcp_message`,
`DHCP_CLIENT_PORT`, `DHCP_SERVER_PORT`). -/
structure Target where
  /-- The host stores the low octet of an integer first. -/
  little_endian : Bool
  /-- The value of `sizeof(struct dhcp_message)`. -/
  sizeof_dhcp_message : Nat
  /-- The macro `DHCP_CLIENT_PORT` of `dhcp.h`. -/
  DHCP_CLIENT_PORT : Nat
  /-- The macro `DHCP_SERVER_PORT` of `dhcp.h`. -/
  DHCP_SERVER_PORT : Nat

/-! ## System constants (`netinet/in.h`, `netinet/ip.h`) -/

/-- The value of `sizeof(struct ip)`. -/
def sizeof_ip : Nat := 20
/-- The value of `sizeof(struct udphdr)`. -/
def sizeof_udphdr : Nat := 8
/-- The constant `IPPROTO_UDP`. -/
def IPPROTO_UDP : Nat := 17
/-- The constant `IPVERSION`. -/
def IPVERSION : Nat := 4
/-- The constant `IPTOS_LOWDELAY`. -/
def IPTOS_LOWDELAY : Nat := 0x10
/-- The constant `IP_DF`, the "don't fragment" flag. -/
def IP_DF : Nat := 0x4000
/-- The constant `IPDEFTTL`. -/
def IPDEFTTL : Nat := 64

/-- The value of `sizeof(struct udp_dhcp_packet)`:
`struct ip ip; struct udphdr udp; struct dhcp_message dhcp;`. -/
def sizeof_udp_dhcp_packet (T : Target) : Nat :=
  sizeof_ip + sizeof_udphdr + T.sizeof_dhcp_message

/-! Byte offsets of the fields inside `struct udp_dhcp_packet`. -/

/-- Offset of the octet shared by the bit fields `ip_hl` and `ip_v`. -/
def off_ip_vhl : Nat := 0
/-- Offset of `ip.ip_tos`. -/
def off_ip_tos : Nat := 1
/-- Offset of `ip.ip_len`. -/
def off_ip_len : Nat := 2
/-- Offset of `ip.ip_id`. -/
def off_ip_id : Nat := 4
/-- Offset of `ip.ip_off`. -/
def off_ip_off : Nat := 6
/-- Offset of `ip.ip_ttl`. -/
def off_ip_ttl : Nat := 8
/-- Offset of `ip.ip_p`. -/
def off_ip_p : Nat := 9
/-- Offset of `ip.ip_sum`. -/
def off_ip_sum : Nat := 10
/-- Offset of `ip.ip_src`. -/
def off_ip_src : Nat := 12
/-- Offset of `ip.ip_dst`. -/
def off_ip_dst : Nat := 16
/-- Offset of `udp.uh_sport`. -/
def off_uh_sport : Nat := 20
/-- Offset of `udp.uh_dport`. -/
def off_uh_dport : Nat := 22
/-- Offset of `udp.uh_ulen`. -/
def off_uh_ulen : Nat := 24
/-- Offset of `udp.uh_sum`. -/
def off_uh_sum : Nat := 26
/-- The value of `offsetof(struct udp_dhcp_packet, dhcp)`. -/
def off_dhcp : Nat := 28

/-! ## Memory access -/

/-- The octet at offset `off`. -/
def load8 (m : List Byte) (off : Nat) : Byte := m.getD off 0

/-- Overwrite the octets of `m` from offset `off` on with `bs` (an assignment to
a field, or a `memcpy` into the object). -/
def store (m : List Byte) (off : Nat) (bs : List Byte) : List Byte :=
  m.take off ++ bs ++ m.drop (off + bs.length)

/-- The function `htons`: its argument is converted to `uint16_t`, and the two
octets are swapped on a little-endian host. -/
def htons (T : Target) (x : Nat) : Nat :=
  if T.little_endian then (x % 65536) % 256 * 256 + (x % 65536) / 256 else x % 65536

/-- The function `ntohs`, the same octet swap as `htons`. -/
def ntohs (T : Target) (x : Nat) : Nat := htons T x

/-- The two octets of a `uint16_t` object holding `v`, in memory order. -/
def bytes16 (T : Target) (v : Nat) : List Byte :=
  if T.little_endian then [byte v, byte (v / 256)] else [byte (v / 256), byte v]

/-- The `uint16_t` value of the two octets at offset `off`. -/
def load16 (T : Target) (m : List Byte) (off : Nat) : Nat :=
  if T.little_endian then (load8 m (off + 1)).val * 256 + (load8 m off).val
  else (load8 m off).val * 256 + (load8 m (off + 1)).val

/-- An IPv4 address, `struct in_addr`: the four octets of `s_addr` as they lie in
memory.  `s_addr` is kept in network byte order, so `s0` is the first octet of
the dotted quad on every host. -/
structure in_addr where
  /-- First octet in memory. -/
  s0 : Byte
  /-- Second octet in memory. -/
  s1 : Byte
  /-- Third octet in memory. -/
  s2 : Byte
  /-- Fourth octet in memory. -/
  s3 : Byte
deriving DecidableEq, Repr

/-- The octets of an address object. -/
def in_addr.bytes (a : in_addr) : List Byte := [a.s0, a.s1, a.s2, a.s3]

/-- The constant `INADDR_ANY`, `s_addr == 0`. -/
def INADDR_ANY : in_addr := ⟨0, 0, 0, 0⟩
/-- The constant `INADDR_BROADCAST`, `s_addr == 0xffffffff`. -/
def INADDR_BROADCAST : in_addr := ⟨255, 255, 255, 255⟩

/-- The address object at offset `off`. -/
def load_addr (m : List Byte) (off : Nat) : in_addr :=
  ⟨load8 m off, load8 m (off + 1), load8 m (off + 2), load8 m (off + 3)⟩

/-! ## `checksum` -/

/-- The loop of `checksum` and the statement after it:
`while (len > 1) { sum += addr[0] * 256 + addr[1]; addr += 2; len -= 2; }`
`if (len == 1) sum += *addr * 256;`
over the octets still to be read, `sum` being a `uint32_t`. -/
def checksum_loop : List Byte → Nat → Nat
  | a0 :: a1 :: rest, sum => checksum_loop rest ((sum + (a0.val * 256 + a1.val)) % 4294967296)
  | [a0], sum => (sum + a0.val * 256) % 4294967296
  | [], sum => sum

/-- The function `checksum(const void *data, uint16_t len)`.  The result is the
`uint16_t` value returned, in the byte order of the host. -/
def checksum (T : Target) (data : List Byte) (len : Nat) : Nat :=
  let sum := checksum_loop (data.take (len % 65536)) 0
  let sum := ((sum >>> 16) + (sum &&& 0xffff)) % 4294967296
  let sum := (sum + (sum >>> 16)) % 4294967296
  let sum := htons T sum
  (4294967295 - sum) % 65536

/-! ## `make_udp_packet` -/

/-- A freshly allocated object of `n` octets whose content is whatever the
memory held before (`uninit i` is the octet found at offset `i`): a local
variable without initialiser. -/
def local_object (uninit : Nat → Byte) (n : Nat) : List Byte :=
  (List.range n).map uninit

/-- The function `make_udp_packet(packet, data, length, source, dest)`.  The
pair `data`, `length` is the list `data`, so `length` is `data.length`.  The
result is the object stored in `*packet`, all `sizeof(struct udp_dhcp_packet)`
octets of it, and the value returned.
Precondition of the C code: `length <= sizeof(struct dhcp_message)`, otherwise
the `memcpy` writes past the allocation. -/
def make_udp_packet (T : Target) (data : List Byte) (source dest : in_addr) :
    List Byte × Int :=
  let length := data.length
  -- udpp = xzalloc(sizeof(*udpp));
  let udpp := List.replicate (sizeof_udp_dhcp_packet T) (0 : Byte)
  -- memcpy(&udpp->dhcp, data, length);
  let udpp := store udpp off_dhcp data
  -- ip->ip_p = IPPROTO_UDP;
  let udpp := store udpp off_ip_p [byte IPPROTO_UDP]
  -- ip->ip_src.s_addr = source.s_addr;
  let udpp := store udpp off_ip_src source.bytes
  -- if (dest.s_addr == 0) ip->ip_dst.s_addr = INADDR_BROADCAST; else ... = dest.s_addr;
  let udpp :=
    if dest = ⟨0, 0, 0, 0⟩ then store udpp off_ip_dst INADDR_BROADCAST.bytes
    else store udpp off_ip_dst dest.bytes
  -- udp->uh_sport = htons(DHCP_CLIENT_PORT);
  let udpp := store udpp off_uh_sport (bytes16 T (htons T T.DHCP_CLIENT_PORT))
  -- udp->uh_dport = htons(DHCP_SERVER_PORT);
  let udpp := store udpp off_uh_dport (bytes16 T (htons T T.DHCP_SERVER_PORT))
  -- udp->uh_ulen = htons(sizeof(*udp) + length);
  let udpp := store udpp off_uh_ulen (bytes16 T (htons T (sizeof_udphdr + length)))
  -- ip->ip_len = udp->uh_ulen;
  let udpp := store udpp off_ip_len (bytes16 T (load16 T udpp off_uh_ulen))
  -- udp->uh_sum = checksum(udpp, sizeof(*udpp));
  let udpp := store udpp off_uh_sum (bytes16 T (checksum T udpp (sizeof_udp_dhcp_packet T)))
  -- ip->ip_v = IPVERSION;
  let udpp := store udpp off_ip_vhl [byte (IPVERSION % 16 * 16 + (load8 udpp off_ip_vhl).val % 16)]
  -- ip->ip_hl = 5;
  let udpp := store udpp off_ip_vhl [byte ((load8 udpp off_ip_vhl).val / 16 * 16 + 5 % 16)]
  -- ip->ip_id = 0;
  let udpp := store udpp off_ip_id (bytes16 T 0)
  -- ip->ip_tos = IPTOS_LOWDELAY;
  let udpp := store udpp off_ip_tos [byte IPTOS_LOWDELAY]
  -- ip->ip_len = htons (sizeof(*ip) + sizeof(*udp) + length);
  let udpp := store udpp off_ip_len (bytes16 T (htons T (sizeof_ip + sizeof_udphdr + length)))
  -- ip->ip_id = 0;
  let udpp := store udpp off_ip_id (bytes16 T 0)
  -- ip->ip_off = htons(IP_DF);
  let udpp := store udpp off_ip_off (bytes16 T (htons T IP_DF))
  -- ip->ip_ttl = IPDEFTTL;
  let udpp := store udpp off_ip_ttl [byte IPDEFTTL]
  -- ip->ip_sum = checksum(ip, sizeof(*ip));
  let udpp := store udpp off_ip_sum (bytes16 T (checksum T udpp sizeof_ip))
  -- *packet = (uint8_t *)udpp; return sizeof(*ip) + sizeof(*udp) + length;
  (udpp, ((sizeof_ip + sizeof_udphdr + length : Nat) : Int))

/-! ## `get_udp_data` -/

/-- What `get_udp_data(data, udp)` gives back: `data_off` is the offset into
`udp` of the pointer stored in `*data`, `ret` the `ssize_t` returned. -/
structure udp_data where
  /-- Offset into `udp` of the pointer stored in `*data`. -/
  data_off : Nat
  /-- The value returned. -/
  ret : Int
deriving DecidableEq, Repr

/-- The function `get_udp_data(data, udp)`.
Precondition of the C code: `udp` points to at least
`sizeof(struct udp_dhcp_packet)` octets. -/
def get_udp_data (T : Target) (udp : List Byte) : udp_data :=
  -- memcpy(&packet, udp, sizeof(packet));
  let packet := udp.take (sizeof_udp_dhcp_packet T)
  -- *data = udp + offsetof(struct udp_dhcp_packet, dhcp);
  -- return ntohs(packet.ip.ip_len) - sizeof(packet.ip) - sizeof(packet.udp);
  { data_off := off_dhcp
    ret := (ntohs T (load16 T packet off_ip_len) : Int) - (sizeof_ip : Int) - (sizeof_udphdr : Int) }

/-! ## `valid_udp_packet` -/

/-- What `valid_udp_packet(data, data_len, from)` leaves behind. -/
structure valid_result where
  /-- The value returned. -/
  ret : Int
  /-- The object `*from` afterwards, `none` when `from` is `NULL`. -/
  from_addr : Option in_addr
  /-- Whether `errno` was set to `EINVAL`. -/
  errno_EINVAL : Bool
deriving DecidableEq, Repr

/-- The local `struct udp_dhcp_packet packet` of `valid_udp_packet` after
`memcpy(&packet, data, MIN(data_len, sizeof(packet)))`: the octets not copied
keep what the stack held (`uninit`). -/
def packet_copy (T : Target) (uninit : Nat → Byte) (data : List Byte) (data_len : Nat) :
    List Byte :=
  store (local_object uninit (sizeof_udp_dhcp_packet T)) 0
    (data.take (min data_len (sizeof_udp_dhcp_packet T)))

/-- The statements of `valid_udp_packet` between `udpsum = packet.udp.uh_sum;`
and the last `if`: the copy whose checksum is compared with `udpsum`. -/
def udp_pseudo (T : Target) (packet : List Byte) : List Byte :=
  -- packet.udp.uh_sum = 0;
  let packet := store packet off_uh_sum (bytes16 T 0)
  -- packet.ip.ip_hl = 0;
  let packet := store packet off_ip_vhl [byte ((load8 packet off_ip_vhl).val / 16 * 16 + 0 % 16)]
  -- packet.ip.ip_v = 0;
  let packet := store packet off_ip_vhl [byte (0 % 16 * 16 + (load8 packet off_ip_vhl).val % 16)]
  -- packet.ip.ip_tos = 0;
  let packet := store packet off_ip_tos [byte 0]
  -- packet.ip.ip_len = packet.udp.uh_ulen;
  let packet := store packet off_ip_len (bytes16 T (load16 T packet off_uh_ulen))
  -- packet.ip.ip_id = 0;
  let packet := store packet off_ip_id (bytes16 T 0)
  -- packet.ip.ip_off = 0;
  let packet := store packet off_ip_off (bytes16 T 0)
  -- packet.ip.ip_ttl = 0;
  let packet := store packet off_ip_ttl [byte 0]
  -- packet.ip.ip_sum = 0;
  store packet off_ip_sum (bytes16 T 0)

/-- The function `valid_udp_packet(data, data_len, from)`.  `from_addr` is the
object `from` points to before the call, `none` for a `NULL` pointer; `uninit`
is the content of the stack where the local `packet` is placed.
Precondition of the C code: `data` points to at least `data_len` octets. -/
def valid_udp_packet (T : Target) (uninit : Nat → Byte) (data : List Byte) (data_len : Nat)
    (from_addr : Option in_addr) : valid_result :=
  -- if (data_len < sizeof(packet.ip)) { if (from) from->s_addr = INADDR_ANY; ... }
  if data_len < sizeof_ip then
    { ret := -1, from_addr := from_addr.map (fun _ => INADDR_ANY), errno_EINVAL := true }
  else
    -- memcpy(&packet, data, MIN(data_len, sizeof(packet)));
    let packet := packet_copy T uninit data data_len
    -- if (from) from->s_addr = packet.ip.ip_src.s_addr;
    let from_addr := from_addr.map (fun _ => load_addr packet off_ip_src)
    -- if (data_len > sizeof(packet)) { errno = EINVAL; return -1; }
    if data_len > sizeof_udp_dhcp_packet T then
      { ret := -1, from_addr := from_addr, errno_EINVAL := true }
    -- if (checksum(&packet.ip, sizeof(packet.ip)) != 0) { errno = EINVAL; return -1; }
    else if checksum T packet sizeof_ip ≠ 0 then
      { ret := -1, from_addr := from_addr, errno_EINVAL := true }
    else
      -- bytes = ntohs(packet.ip.ip_len);
      let bytes := ntohs T (load16 T packet off_ip_len)
      -- if (data_len < bytes) { errno = EINVAL; return -1; }
      if data_len < bytes then
        { ret := -1, from_addr := from_addr, errno_EINVAL := true }
      else
        -- udpsum = packet.udp.uh_sum;
        let udpsum := load16 T packet off_uh_sum
        -- packet.udp.uh_sum = 0; ... packet.ip.ip_sum = 0;
        let packet := udp_pseudo T packet
        -- if (udpsum && checksum(&packet, bytes) != udpsum) { errno = EINVAL; return -1; }
        if udpsum ≠ 0 ∧ checksum T packet bytes ≠ udpsum then
          { ret := -1, from_addr := from_addr, errno_EINVAL := true }
        else
          -- return 0;
          { ret := 0, from_addr := from_addr, errno_EINVAL := false }

/-! ## `inet_ntocidr`, `inet_cidrtoaddr` -/

/-- The function `htonl`: its argument is converted to `uint32_t`, and the four
octets are reversed on a little-endian host. -/
def htonl (T : Target) (x : Nat) : Nat :=
  if T.little_endian then
    x % 256 * 16777216 + x / 256 % 256 * 65536 + x / 65536 % 256 * 256 + x / 16777216 % 256
  else x % 4294967296

/-- The `uint32_t` value the host reads from the member `s_addr`. -/
def in_addr.s_addr (T : Target) (a : in_addr) : Nat :=
  if T.little_endian then a.s3.val * 16777216 + a.s2.val * 65536 + a.s1.val * 256 + a.s0.val
  else a.s0.val * 16777216 + a.s1.val * 65536 + a.s2.val * 256 + a.s3.val

/-- The loop `while (mask) { cidr++; mask <<= 1; }` of `inet_ntocidr`, `mask`
being a `uint32_t`; `none` when the loop has not ended after `fuel` tests. -/
def inet_ntocidr_loop : Nat → Nat → Int → Option Int
  | 0, _, _ => none
  | fuel + 1, mask, cidr =>
    if mask ≠ 0 then inet_ntocidr_loop fuel ((mask <<< 1) % 4294967296) (cidr + 1)
    else some cidr

/-- The function `inet_ntocidr(address)`.  The loop shifts a 32-bit value left,
so it ends after at most 32 rounds; 33 tests are provided. -/
def inet_ntocidr (T : Target) (address : in_addr) : Option Int :=
  -- int cidr = 0; uint32_t mask = htonl(address.s_addr);
  inet_ntocidr_loop 33 (htonl T (address.s_addr T)) 0

/-- The function `memset(s + off, c, n)` on the octets `s` of an object: `c` is
converted to `unsigned char`. -/
def memset (s : List Byte) (off : Nat) (c : Int) (n : Nat) : List Byte :=
  store s off (List.replicate n (byte (c % 256).toNat))

/-- What `inet_cidrtoaddr(cidr, addr)` leaves behind. -/
structure cidrtoaddr_result where
  /-- The value returned. -/
  ret : Int
  /-- The object `*addr` afterwards. -/
  addr : in_addr
  /-- Whether `errno` was set to `EINVAL`. -/
  errno_EINVAL : Bool
deriving DecidableEq, Repr

/-- The function `inet_cidrtoaddr(cidr, addr)`; `addr` is the object the pointer
refers to before the call.  `/` and `%` on `int` truncate toward zero. -/
def inet_cidrtoaddr (cidr : Int) (addr : in_addr) : cidrtoaddr_result :=
  -- if (cidr < 1 || cidr > 32) { errno = EINVAL; return -1; }
  if cidr < 1 ∨ cidr > 32 then
    { ret := -1, addr := addr, errno_EINVAL := true }
  else
    -- ocets = (cidr + 7) / 8;
    let ocets : Int := (cidr + 7).tdiv 8
    -- addr->s_addr = 0;
    let s : List Byte := [0, 0, 0, 0]
    -- if (ocets > 0) {
    let s :=
      if ocets > 0 then
        -- memset(&addr->s_addr, 255, (size_t)ocets - 1);
        let s := memset s 0 255 (ocets - 1).toNat
        -- memset((unsigned char *)&addr->s_addr + (ocets - 1),
        --     (256 - (1 << (32 - cidr) % 8)), 1);
        memset s (ocets - 1).toNat (256 - ((1 <<< ((32 - cidr).tmod 8).toNat : Nat) : Int)) 1
      else s
    -- return 0;
    { ret := 0, addr := load_addr s 0, errno_EINVAL := false }

/-! ## `hwaddr_ntoa`, `hwaddr_aton` -/

/-- The character `:`. -/
def colon : Byte := 58

/-- One lowercase hexadecimal digit as `printf` writes it for `%x`. -/
def hex_digit (v : Nat) : Byte :=
  if v < 10 then byte (48 + v) else byte (97 + (v - 10))

/-- The characters `snprintf(p, 3, "%.2x", v)` stores for an `unsigned char`
`v`: two lowercase hexadecimal digits (the terminating NUL is overwritten by
what follows). -/
def sprintf_02x (v : Byte) : List Byte :=
  [hex_digit (v.val / 16), hex_digit (v.val % 16)]

/-- The loop of `hwaddr_ntoa` over the octets it visits: `i` is the loop
counter, `p` the characters written to `hwaddr_buffer` so far. -/
def hwaddr_ntoa_loop : List Byte → Nat → List Byte → List Byte
  | [], _, p => p
  | b :: rest, i, p =>
    -- if (i > 0) *p ++= ':';
    let p := if i > 0 then p ++ [colon] else p
    -- p += snprintf(p, 3, "%.2x", hwaddr[i]);
    let p := p ++ sprintf_02x b
    hwaddr_ntoa_loop rest (i + 1) p

/-- The function `hwaddr_ntoa(hwaddr, hwlen)`: the characters of the string it
returns, without the terminating NUL.  `HWADDR_LEN` is a macro of `net.h`.
The loop `for (i = 0; i < hwlen && i < HWADDR_LEN; i++)` visits the first
`min hwlen HWADDR_LEN` octets.
Precondition of the C code: `hwaddr` points to at least that many octets. -/
def hwaddr_ntoa (HWADDR_LEN : Nat) (hwaddr : List Byte) (hwlen : Nat) : List Byte :=
  hwaddr_ntoa_loop (hwaddr.take (min hwlen HWADDR_LEN)) 0 []

/-- The function `isxdigit` in the C locale: `0`-`9`, `a`-`f`, `A`-`F`. -/
def isxdigit (c : Byte) : Bool :=
  (48 ≤ c.val && c.val ≤ 57) || (97 ≤ c.val && c.val ≤ 102) || (65 ≤ c.val && c.val ≤ 70)

/-- The value of one hexadecimal digit for `strtol` with base 16. -/
def xdigit_val (c : Byte) : Nat :=
  if 48 ≤ c.val ∧ c.val ≤ 57 then c.val - 48
  else if 97 ≤ c.val ∧ c.val ≤ 102 then c.val - 97 + 10
  else if 65 ≤ c.val ∧ c.val ≤ 70 then c.val - 65 + 10
  else 0

/-- The value `(unsigned char)strtol(c, NULL, 16)` for the string `c` of the two
hexadecimal digits `c0`, `c1`. -/
def strtol16 (c0 c1 : Byte) : Byte := byte (xdigit_val c0 * 16 + xdigit_val c1)

/-- What `hwaddr_aton(buffer, addr)` leaves behind. -/
structure aton_result where
  /-- The value returned. -/
  ret : Nat
  /-- The octets stored through `bp`, in order, `none` when `buffer` is `NULL`. -/
  buffer : Option (List Byte)
  /-- Whether `errno` was set to `EINVAL`. -/
  errno_EINVAL : Bool
deriving DecidableEq, Repr

/-- The loop of `hwaddr_aton`.  The first argument is the memory from `p` on:
the characters of the string, the octets behind the list being NUL.  `bp` holds
the octets stored so far, `len` is the counter.  One round reads `c[0] = *p++`
and `c[1] = *p++` and then looks at `*p` and `*(p + 1)`, so the cases go by how
many characters are left. -/
def hwaddr_aton_loop : List Byte → Option (List Byte) → Nat → aton_result
  -- while (*p): the string has ended
  | [], bp, len => { ret := len, buffer := bp, errno_EINVAL := false }
  -- one character left: c[1] is the NUL, which is no hex digit
  | [c0], bp, len =>
    if c0 = 0 then { ret := len, buffer := bp, errno_EINVAL := false }
    else { ret := 0, buffer := bp, errno_EINVAL := true }
  -- two characters left: after them *p is the NUL
  | [c0, c1], bp, len =>
    if c0 = 0 then { ret := len, buffer := bp, errno_EINVAL := false }
    -- if (isxdigit(c[0]) == 0 || isxdigit(c[1]) == 0) { errno = EINVAL; return 0; }
    else if isxdigit c0 = false ∨ isxdigit c1 = false then
      { ret := 0, buffer := bp, errno_EINVAL := true }
    -- if (len == 0 && *p == '\0') { errno = EINVAL; return 0; }
    else if len = 0 then { ret := 0, buffer := bp, errno_EINVAL := true }
    -- *p == '\0': no p++; if (bp) *bp++ = (unsigned char)strtol(c, NULL, 16); len++;
    -- and the loop ends
    else { ret := len + 1, buffer := bp.map (fun b => b ++ [strtol16 c0 c1]),
           errno_EINVAL := false }
  | c0 :: c1 :: c2 :: rest, bp, len =>
    if c0 = 0 then { ret := len, buffer := bp, errno_EINVAL := false }
    -- if (isxdigit(c[0]) == 0 || isxdigit(c[1]) == 0) { errno = EINVAL; return 0; }
    else if isxdigit c0 = false ∨ isxdigit c1 = false then
      { ret := 0, buffer := bp, errno_EINVAL := true }
    -- if (len == 0 && *p == '\0') { errno = EINVAL; return 0; }
    else if len = 0 ∧ c2 = 0 then { ret := 0, buffer := bp, errno_EINVAL := true }
    -- if (!(*p == '\0' || (*p == ':' && *(p + 1) != '\0'))) { errno = EINVAL; return 0; }
    else if ¬ (c2 = 0 ∨ (c2 = colon ∧ rest.headD 0 ≠ 0)) then
      { ret := 0, buffer := bp, errno_EINVAL := true }
    -- if (*p) p++; if (bp) *bp++ = (unsigned char)strtol(c, NULL, 16); len++;
    else if c2 ≠ 0 then
      hwaddr_aton_loop rest (bp.map (fun b => b ++ [strtol16 c0 c1])) (len + 1)
    else
      { ret := len + 1, buffer := bp.map (fun b => b ++ [strtol16 c0 c1]),
        errno_EINVAL := false }

/-- The function `hwaddr_aton(buffer, addr)`.  `addr` lists the characters of
the string.  `buffer` is `none` for a `NULL` pointer and `some []` otherwise;
the result lists the octets stored at `buffer[0]`, `buffer[1]`, ... -/
def hwaddr_aton (buffer : Option (List Byte)) (addr : List Byte) : aton_result :=
  hwaddr_aton_loop addr (buffer.map (fun _ => [])) 0

/-! ## The option cursor macros of `dhcp6.h` -/

/-- The value of `sizeof(struct dhcp6_message)`: `type` and `xid[3]`. -/
def sizeof_dhcp6_message : Nat := 4
/-- The value of `sizeof(struct dhcp6_option)`: `code` and `len`, packed. -/
def sizeof_dhcp6_option : Nat := 4
/-- Offset of the member `len` of `struct dhcp6_option`. -/
def off_d6_len : Nat := 2

/-- The macro `D6_FIRST_OPTION(m)`; pointers are offsets into the memory. -/
def D6_FIRST_OPTION (m : Nat) : Nat := m + sizeof_dhcp6_message

/-- The macro `D6_NEXT_OPTION(o)`:
`(uint8_t *)o + sizeof(struct dhcp6_option) + ntohs((o)->len)`. -/
def D6_NEXT_OPTION (T : Target) (mem : List Byte) (o : Nat) : Nat :=
  o + sizeof_dhcp6_option + ntohs T (load16 T mem (o + off_d6_len))

/-- The macro `D6_OPTION_DATA(o)`. -/
def D6_OPTION_DATA (o : Nat) : Nat := o + sizeof_dhcp6_option

/-! ## `get_netmask` -/

/-- The function `ntohl`, the same octet reversal as `htonl`. -/
def ntohl (T : Target) (x : Nat) : Nat := htonl T x

/-- The macro `IN_CLASSA(a)`: `(((uint32_t)(a)) & 0x80000000) == 0`. -/
def IN_CLASSA (a : Nat) : Bool := (a &&& 0x80000000) == 0
/-- The constant `IN_CLASSA_NET`. -/
def IN_CLASSA_NET : Nat := 0xff000000
/-- The macro `IN_CLASSB(a)`: `(((uint32_t)(a)) & 0xc0000000) == 0x80000000`. -/
def IN_CLASSB (a : Nat) : Bool := (a &&& 0xc0000000) == 0x80000000
/-- The constant `IN_CLASSB_NET`. -/
def IN_CLASSB_NET : Nat := 0xffff0000
/-- The macro `IN_CLASSC(a)`: `(((uint32_t)(a)) & 0xe0000000) == 0xc0000000`. -/
def IN_CLASSC (a : Nat) : Bool := (a &&& 0xe0000000) == 0xc0000000
/-- The constant `IN_CLASSC_NET`. -/
def IN_CLASSC_NET : Nat := 0xffffff00

/-- The function `get_netmask(addr)`; `addr` and the result are `uint32_t`
values as the host holds them. -/
def get_netmask (T : Target) (addr : Nat) : Nat :=
  -- if (addr == 0) return 0;
  if addr = 0 then 0
  else
    -- dst = htonl(addr);
    let dst := htonl T addr
    -- if (IN_CLASSA(dst)) return ntohl(IN_CLASSA_NET);
    if IN_CLASSA dst then ntohl T IN_CLASSA_NET
    -- if (IN_CLASSB(dst)) return ntohl(IN_CLASSB_NET);
    else if IN_CLASSB dst then ntohl T IN_CLASSB_NET
    -- if (IN_CLASSC(dst)) return ntohl(IN_CLASSC_NET);
    else if IN_CLASSC dst then ntohl T IN_CLASSC_NET
    -- return 0;
    else 0

/-- The address object whose member `s_addr` holds the `uint32_t` value `v`:
its four octets in memory order. -/
def in_addr.of_s_addr (T : Target) (v : Nat) : in_addr :=
  if T.little_endian then ⟨byte v, byte (v / 256), byte (v / 65536), byte (v / 16777216)⟩
  else ⟨byte (v / 16777216), byte (v / 65536), byte (v / 256), byte v⟩

/-! ## Auxiliary definitions for the proofs and the specification side -/

/-- The sum, without any wrap-around, of the octets of a buffer weighted as in
big-endian 16-bit words: `hi` tells whether the first octet is the high octet
of its word. -/
def wsum_aux : Bool → List Byte → Nat
  | _, [] => 0
  | true, a :: l => a.val * 256 + wsum_aux false l
  | false, a :: l => a.val + wsum_aux true l

/-- The exact sum of the big-endian 16-bit words of a buffer, an odd last octet
being the high octet of a word. -/
def wsum (l : List Byte) : Nat := wsum_aux true l

/-- Both folding steps of `checksum` followed by the conversion to 16 bits. -/
def fold16 (s : Nat) : Nat :=
  ((s / 65536 + s % 65536) + (s / 65536 + s % 65536) / 65536) % 65536

/-- The Internet checksum of the first `len` octets as a big-endian number: the
complement of the folded word sum. -/
def ck (data : List Byte) (len : Nat) : Nat := 65535 - fold16 (wsum (data.take len))

/-- The big-endian 16-bit words of a buffer; an odd trailing octet is the high
octet of a word whose low octet is zero. -/
def be_words : List Byte → List Nat
  | a :: b :: rest => (a.val * 256 + b.val) :: be_words rest
  | [a] => [a.val * 256]
  | [] => []

/-- One's-complement addition of two 16-bit numbers: the carry out of bit 15 is
added back in at bit 0. -/
def oc_add (x y : Nat) : Nat := (x + y) % 65536 + (x + y) / 65536

/-- The 16-bit one's-complement sum of a list of words. -/
def oc_sum (ws : List Nat) : Nat := ws.foldl oc_add 0

/-- The Internet checksum of a buffer: the bitwise complement of the
one's-complement sum of its big-endian words, as a 16-bit number. -/
def internet_checksum (buf : List Byte) : Nat := 65535 - oc_sum (be_words buf)

/-- The weight of the octet at index `i` in the word sum: 256 for the high
octet of a word, 1 for the low one; `hi` as in `wsum_aux`. -/
def wt : Bool → Nat → Nat
  | true, 0 => 256
  | false, 0 => 1
  | b, i + 1 => wt (!b) i

/-- The destination address `make_udp_packet` writes for the argument `dest`. -/
def ip_dst_of (dest : in_addr) : in_addr :=
  if dest = ⟨0, 0, 0, 0⟩ then INADDR_BROADCAST else dest

/-- First octet in memory of the value `checksum` returns for `d`, `n`. -/
def ckb0 (T : Target) (d : List Byte) (n : Nat) : Byte := load8 (bytes16 T (checksum T d n)) 0

/-- Second octet in memory of the value `checksum` returns for `d`, `n`. -/
def ckb1 (T : Target) (d : List Byte) (n : Nat) : Byte := load8 (bytes16 T (checksum T d n)) 1

/-- The octets of a `struct udp_dhcp_packet` given field by field: 16-bit fields
as big-endian numbers, the two checksum fields as their octets, `rest` the
octets of the member `dhcp`. -/
def header (vhl tos : Byte) (len ipoff : Nat) (ttl c0 c1 : Byte) (src dst : in_addr)
    (sport dport ulen : Nat) (u0 u1 : Byte) (rest : List Byte) : List Byte :=
  vhl :: tos :: byte (len / 256) :: byte len :: 0 :: 0 :: byte (ipoff / 256) :: byte ipoff ::
  ttl :: byte IPPROTO_UDP :: c0 :: c1 :: src.s0 :: src.s1 :: src.s2 :: src.s3 ::
  dst.s0 :: dst.s1 :: dst.s2 :: dst.s3 ::
  byte (sport / 256) :: byte sport :: byte (dport / 256) :: byte dport ::
  byte (ulen / 256) :: byte ulen :: u0 :: u1 :: rest

/-- The member `dhcp` of the object `make_udp_packet` builds: the payload and
the zero octets of `xzalloc` behind it. -/
def dhcp_area (T : Target) (data : List Byte) : List Byte :=
  data ++ List.replicate (T.sizeof_dhcp_message - data.length) 0

/-- The object `udpp` of `make_udp_packet` when the UDP checksum is taken. -/
def udp_stage (T : Target) (data : List Byte) (source dest : in_addr) : List Byte :=
  header 0 0 (sizeof_udphdr + data.length) 0 0 0 0 source (ip_dst_of dest)
    T.DHCP_CLIENT_PORT T.DHCP_SERVER_PORT (sizeof_udphdr + data.length) 0 0 (dhcp_area T data)

/-- The object `udpp` of `make_udp_packet` when the IP checksum is taken. -/
def ip_stage (T : Target) (data : List Byte) (source dest : in_addr) : List Byte :=
  header 69 (byte IPTOS_LOWDELAY) (sizeof_ip + sizeof_udphdr + data.length) IP_DF (byte IPDEFTTL)
    0 0 source (ip_dst_of dest)
    T.DHCP_CLIENT_PORT T.DHCP_SERVER_PORT (sizeof_udphdr + data.length)
    (ckb0 T (udp_stage T data source dest) (sizeof_udp_dhcp_packet T))
    (ckb1 T (udp_stage T data source dest) (sizeof_udp_dhcp_packet T)) (dhcp_area T data)

/-- The finished object of `make_udp_packet`, field by field. -/
def frame_of (T : Target) (data : List Byte) (source dest : in_addr) : List Byte :=
  header 69 (byte IPTOS_LOWDELAY) (sizeof_ip + sizeof_udphdr + data.length) IP_DF (byte IPDEFTTL)
    (ckb0 T (ip_stage T data source dest) sizeof_ip)
    (ckb1 T (ip_stage T data source dest) sizeof_ip) source (ip_dst_of dest)
    T.DHCP_CLIENT_PORT T.DHCP_SERVER_PORT (sizeof_udphdr + data.length)
    (ckb0 T (udp_stage T data source dest) (sizeof_udp_dhcp_packet T))
    (ckb1 T (udp_stage T data source dest) (sizeof_udp_dhcp_packet T)) (dhcp_area T data)

/-- The number whose big-endian (network order) two-octet form lies at offset
`off`. -/
def load16_be (m : List Byte) (off : Nat) : Nat :=
  (load8 m off).val * 256 + (load8 m (off + 1)).val

/-- The number whose 32 bits, most significant first, are the octets of an
address in memory order: the address read in network byte order. -/
def be32 (a : in_addr) : Nat :=
  a.s0.val * 16777216 + a.s1.val * 65536 + a.s2.val * 256 + a.s3.val

/-- A received buffer of `sizeof(struct udp_dhcp_packet)` octets for a build with
`sizeof(struct dhcp_message) = 548`: a correct IP header whose total length is
20, eight further octets with a zero UDP checksum field, zeros behind. -/
def short_ip_len_frame : List Byte :=
  [69, 16, 0, 20, 0, 0, 64, 0, 64, 17, 48, 201, 10, 0, 0, 1, 255, 255, 255, 255,
    0, 68, 0, 67, 0, 8, 0, 0] ++ List.replicate 548 0

/-- The UDP datagram with its pseudo-header in front, as the UDP checksum is
defined: source address, destination address, a zero octet, the protocol, the
UDP length, then the UDP header with a zero checksum field and the payload. -/
def udp_pseudo_datagram (src dst : in_addr) (sport dport : Nat) (payload : List Byte) :
    List Byte :=
  src.s0 :: src.s1 :: src.s2 :: src.s3 :: dst.s0 :: dst.s1 :: dst.s2 :: dst.s3 ::
  0 :: byte IPPROTO_UDP ::
  byte ((sizeof_udphdr + payload.length) / 256) :: byte (sizeof_udphdr + payload.length) ::
  byte (sport / 256) :: byte sport :: byte (dport / 256) :: byte dport ::
  byte ((sizeof_udphdr + payload.length) / 256) :: byte (sizeof_udphdr + payload.length) ::
  0 :: 0 :: payload

/-- A DHCPv6 option: its code and its data. -/
structure d6_option where
  /-- The option code. -/
  code : Nat
  /-- The option data. -/
  data : List Byte

/-- The encoding of one option: 2-octet code, 2-octet big-endian length, then
the data. -/
def encode_d6_option (o : d6_option) : List Byte :=
  byte (o.code / 256) :: byte o.code :: byte (o.data.length / 256) :: byte o.data.length ::
    o.data

/-- The encoding of a sequence of options, one after the other. -/
def encode_d6_options : List d6_option → List Byte
  | [] => []
  | o :: os => encode_d6_option o ++ encode_d6_options os

/-- The offset of option number `k` in a message made of a 4-octet header and
the options `os`. -/
def d6_offset (os : List d6_option) (k : Nat) : Nat :=
  sizeof_dhcp6_message + (encode_d6_options (os.take k)).length

/-- The colon-hex text of a list of octets, each given by its two digit
characters: the pairs joined by single colons, no colon in front or behind. -/
def colon_hex : List (Byte × Byte) → List Byte
  | [] => []
  | [q] => [q.1, q.2]
  | q :: r :: rest => q.1 :: q.2 :: colon :: colon_hex (r :: rest)

/-- A lowercase hexadecimal digit: `0`-`9` or `a`-`f`. -/
def is_lower_xdigit (c : Byte) : Bool :=
  (48 ≤ c.val && c.val ≤ 57) || (97 ≤ c.val && c.val ≤ 102)

/-- The two digit characters `hwaddr_ntoa` writes for an octet. -/
def octet_digits (b : Byte) : Byte × Byte :=
  (hex_digit (b.val / 16), hex_digit (b.val % 16))

/-- The fields of `struct udp_dhcp_packet` that are zero in the copy the UDP
checksum is recomputed over, each as offset and size: the UDP checksum, the
IP version/header length octet, TOS, identification, fragment field, TTL and
the IP header checksum. -/
def pseudo_zeroed_fields : List (Nat × Nat) :=
  [(off_uh_sum, 2), (off_ip_vhl, 1), (off_ip_tos, 1), (off_ip_id, 2), (off_ip_off, 2),
   (off_ip_ttl, 1), (off_ip_sum, 2)]

/-- Whether offset `i` lies in the field given as offset and size. -/
def in_field (i : Nat) (f : Nat × Nat) : Bool :=
  decide (f.1 ≤ i) && decide (i < f.1 + f.2)

/-- Octet `i` of the copy the UDP checksum is recomputed over, for the packet
`p` whose octet `i` is `b`: zero inside a zeroed field, the corresponding octet
of the UDP length inside the IP total-length field, `b` everywhere else. -/
def pseudo_octet (p : List Byte) (i : Nat) (b : Byte) : Byte :=
  if pseudo_zeroed_fields.any (in_field i) then 0
  else if in_field i (off_ip_len, 2) then load8 p (off_uh_ulen + (i - off_ip_len))
  else b

/-- The octets of the copy from offset `i` on, `rest` being the octets of the
packet from offset `i` on. -/
def pseudo_copy_from (p : List Byte) : Nat → List Byte → List Byte
  | _, [] => []
  | i, b :: rest => pseudo_octet p i b :: pseudo_copy_from p (i + 1) rest

/-- The copy of a packet in which the UDP checksum and the IP version/header
length, TOS, identification, fragment, TTL and header checksum fields are
zeroed and the IP total length is replaced by the UDP length, stated octet by
octet. -/
def pseudo_copy (p : List Byte) : List Byte := pseudo_copy_from p 0 p

/-! ## Lemmas -/

theorem shr16 (x : Nat) : x >>> 16 = x / 65536 := by
  rw [Nat.shiftRight_eq_div_pow]

theorem and16 (x : Nat) : x &&& 0xffff = x % 65536 := by
  have h := Nat.and_pow_two_sub_one_eq_mod x 16
  simpa using h

theorem fold16_spec (s : Nat) (h : s < 4294967296) :
    fold16 s ≤ 65535 ∧ fold16 s % 65535 = s % 65535 ∧ (fold16 s = 0 ↔ s = 0) := by
  unfold fold16
  have hlt : s / 65536 + s % 65536 < 131071 := by omega
  rcases Nat.lt_or_ge (s / 65536 + s % 65536) 65536 with h | h
  · have hd : (s / 65536 + s % 65536) / 65536 = 0 := Nat.div_eq_of_lt h
    rw [hd, Nat.add_zero, Nat.mod_eq_of_lt h]
    refine ⟨by omega, ?_, by omega⟩
    omega
  · have hd : (s / 65536 + s % 65536) / 65536 = 1 := by omega
    have hm : (s / 65536 + s % 65536 + 1) % 65536 = s / 65536 + s % 65536 - 65535 := by omega
    rw [hd, hm]
    refine ⟨by omega, ?_, by omega⟩
    omega

theorem fold_unique (x r1 r2 : Nat) (h1 : r1 ≤ 65535) (h2 : r2 ≤ 65535)
    (m1 : r1 % 65535 = x % 65535) (m2 : r2 % 65535 = x % 65535)
    (z1 : r1 = 0 ↔ x = 0) (z2 : r2 = 0 ↔ x = 0) : r1 = r2 := by
  omega

theorem wsum_aux_le (b : Bool) (l : List Byte) : wsum_aux b l ≤ 65280 * l.length := by
  induction l generalizing b with
  | nil => simp [wsum_aux]
  | cons a l ih =>
    have ha := a.isLt
    cases b
    · have := ih true
      simp only [wsum_aux, List.length_cons]
      omega
    · have := ih false
      simp only [wsum_aux, List.length_cons]
      omega

theorem checksum_loop_eq (l : List Byte) (s : Nat) (hs : s < 4294967296) :
    checksum_loop l s = (s + wsum l) % 4294967296 := by
  induction l, s using checksum_loop.induct with
  | case1 a0 a1 rest sum ih =>
    rw [checksum_loop, ih (Nat.mod_lt _ (by decide))]
    simp only [wsum, wsum_aux]
    omega
  | case2 a0 sum =>
    simp only [checksum_loop, wsum, wsum_aux]
    omega
  | case3 sum =>
    simp only [checksum_loop, wsum, wsum_aux]
    omega

theorem wsum_take_lt (data : List Byte) (len : Nat) (hlen : len ≤ 65535) :
    wsum (data.take len) < 4294967296 := by
  have h := wsum_aux_le true (data.take len)
  have h2 : (data.take len).length ≤ len := by simp [List.length_take]
  unfold wsum
  omega

theorem fold16_le (s : Nat) : fold16 s ≤ 65535 := by
  unfold fold16
  omega

theorem ck_le (data : List Byte) (len : Nat) : ck data len ≤ 65535 := by
  unfold ck
  omega

theorem htons_lt (T : Target) (x : Nat) : htons T x < 65536 := by
  unfold htons
  split <;> omega

theorem swap_div (y : Nat) (hy : y < 65536) : (y % 256 * 256 + y / 256) / 256 = y % 256 := by
  omega

theorem swap_mod (y : Nat) (hy : y < 65536) : (y % 256 * 256 + y / 256) % 256 = y / 256 := by
  omega

theorem swap_lt (y : Nat) (hy : y < 65536) :
    (y % 256 * 256 + y / 256) % 65536 = y % 256 * 256 + y / 256 := by
  omega

theorem htons_htons (T : Target) (x : Nat) : htons T (htons T x) = x % 65536 := by
  have hy : x % 65536 < 65536 := Nat.mod_lt _ (by decide)
  unfold htons
  generalize x % 65536 = y at hy
  split
  · rw [swap_lt y hy, swap_div y hy, swap_mod y hy]
    omega
  · omega

theorem htons_compl (T : Target) (x : Nat) (h : x ≤ 65535) :
    65535 - htons T x = htons T (65535 - x) := by
  unfold htons
  split <;> omega

theorem htons_inj (T : Target) (x y : Nat) (hx : x ≤ 65535) (hy : y ≤ 65535) :
    htons T x = htons T y ↔ x = y := by
  unfold htons
  split <;> omega

theorem htons_eq_zero (T : Target) (x : Nat) (hx : x ≤ 65535) : htons T x = 0 ↔ x = 0 := by
  unfold htons
  split <;> omega

theorem checksum_eq (T : Target) (data : List Byte) (len : Nat) (hlen : len ≤ 65535) :
    checksum T data len = htons T (ck data len) := by
  have hS := wsum_take_lt data len hlen
  have hf := fold16_le (wsum (data.take len))
  unfold checksum ck
  rw [← htons_compl T _ hf]
  simp only [shr16, and16]
  rw [Nat.mod_eq_of_lt (by omega : len < 65536), checksum_loop_eq _ _ (by decide), Nat.zero_add,
    Nat.mod_eq_of_lt hS]
  generalize wsum (data.take len) = s at hS hf ⊢
  have h1 : (s / 65536 + s % 65536) % 4294967296 = s / 65536 + s % 65536 := by omega
  rw [h1]
  have h2 : (s / 65536 + s % 65536 + (s / 65536 + s % 65536) / 65536) % 4294967296 =
      s / 65536 + s % 65536 + (s / 65536 + s % 65536) / 65536 := by omega
  rw [h2]
  have h3 : htons T (s / 65536 + s % 65536 + (s / 65536 + s % 65536) / 65536) =
      htons T (fold16 s) := by
    unfold htons fold16
    split <;> omega
  rw [h3]
  have h4 := htons_lt T (fold16 s)
  omega

theorem byte_congr {a b : Nat} (h : a % 256 = b % 256) : byte a = byte b := by
  unfold byte
  exact Fin.ext h

theorem bytes16_htons (T : Target) (x : Nat) :
    bytes16 T (htons T x) = [byte (x / 256), byte x] := by
  have hy : x % 65536 < 65536 := Nat.mod_lt _ (by decide)
  have e1 : x / 256 % 256 = x % 65536 / 256 := by omega
  have e2 : x % 256 = x % 65536 % 256 := by omega
  have s1 := swap_div (x % 65536) hy
  have s2 := swap_mod (x % 65536) hy
  unfold bytes16 htons
  split
  · simp only [List.cons.injEq, and_true]
    constructor
    · apply byte_congr
      omega
    · apply byte_congr
      omega
  · simp only [List.cons.injEq, and_true]
    constructor
    · apply byte_congr
      omega
    · apply byte_congr
      omega

theorem bytes16_zero (T : Target) : bytes16 T 0 = [0, 0] := by
  unfold bytes16 byte
  split <;> rfl

theorem load16_eq (T : Target) (m : List Byte) (off : Nat) :
    load16 T m off = htons T ((load8 m off).val * 256 + (load8 m (off + 1)).val) := by
  have h0 := (load8 m off).isLt
  have h1 := (load8 m (off + 1)).isLt
  unfold load16 htons
  split <;> omega

theorem bytes16_load16 (T : Target) (m : List Byte) (off : Nat) :
    bytes16 T (load16 T m off) = [load8 m off, load8 m (off + 1)] := by
  have h0 := (load8 m off).isLt
  have h1 := (load8 m (off + 1)).isLt
  rw [load16_eq, bytes16_htons]
  simp only [byte, List.cons.injEq, and_true]
  constructor
  · apply Fin.ext
    simp only
    omega
  · apply Fin.ext
    simp only
    omega

theorem be_words_le (l : List Byte) : ∀ w ∈ be_words l, w ≤ 65535 := by
  induction l using be_words.induct with
  | case1 a b rest ih =>
    intro w hw
    have ha := a.isLt
    have hb := b.isLt
    simp only [be_words, List.mem_cons] at hw
    rcases hw with rfl | hw
    · omega
    · exact ih w hw
  | case2 a =>
    intro w hw
    have ha := a.isLt
    simp only [be_words, List.mem_singleton] at hw
    omega
  | case3 => simp [be_words]

theorem be_words_sum (l : List Byte) : (be_words l).sum = wsum l := by
  induction l using be_words.induct with
  | case1 a b rest ih =>
    simp only [be_words, List.sum_cons, ih, wsum, wsum_aux]
    omega
  | case2 a => simp [be_words, wsum, wsum_aux]
  | case3 => simp [be_words, wsum, wsum_aux]

theorem oc_add_spec (x y : Nat) (hx : x ≤ 65535) (hy : y ≤ 65535) :
    oc_add x y ≤ 65535 ∧ oc_add x y % 65535 = (x + y) % 65535 ∧
      (oc_add x y = 0 ↔ x + y = 0) := by
  unfold oc_add
  rcases Nat.lt_or_ge (x + y) 65536 with h | h
  · have hd : (x + y) / 65536 = 0 := Nat.div_eq_of_lt h
    rw [hd, Nat.add_zero, Nat.mod_eq_of_lt h]
    omega
  · have hd : (x + y) / 65536 = 1 := by omega
    have hm : (x + y) % 65536 = x + y - 65536 := by omega
    rw [hd, hm]
    refine ⟨by omega, ?_, by omega⟩
    omega

theorem foldl_oc_add_spec (ws : List Nat) (acc : Nat) (hacc : acc ≤ 65535)
    (hws : ∀ w ∈ ws, w ≤ 65535) :
    ws.foldl oc_add acc ≤ 65535 ∧ ws.foldl oc_add acc % 65535 = (acc + ws.sum) % 65535 ∧
      (ws.foldl oc_add acc = 0 ↔ acc + ws.sum = 0) := by
  induction ws generalizing acc with
  | nil => simp [hacc]
  | cons w ws ih =>
    have hw : w ≤ 65535 := hws w (List.mem_cons_self _ _)
    obtain ⟨a1, a2, a3⟩ := oc_add_spec acc w hacc hw
    obtain ⟨b1, b2, b3⟩ := ih (oc_add acc w) a1 (fun v hv => hws v (List.mem_cons_of_mem _ hv))
    simp only [List.foldl_cons, List.sum_cons]
    refine ⟨b1, ?_, ?_⟩
    · rw [b2]
      omega
    · rw [b3]
      omega

theorem oc_sum_be_words (l : List Byte) (h : wsum l < 4294967296) :
    oc_sum (be_words l) = fold16 (wsum l) := by
  obtain ⟨a1, a2, a3⟩ := foldl_oc_add_spec (be_words l) 0 (by decide) (be_words_le l)
  obtain ⟨b1, b2, b3⟩ := fold16_spec (wsum l) h
  rw [be_words_sum, Nat.zero_add] at a2 a3
  exact fold_unique (wsum l) _ _ a1 b1 a2 b2 a3 b3

theorem store_cons_succ (a : Byte) (m : List Byte) (off : Nat) (bs : List Byte) :
    store (a :: m) (off + 1) bs = a :: store m off bs := by
  unfold store
  have h : off + 1 + bs.length = (off + bs.length) + 1 := by omega
  rw [h]
  simp

theorem store_zero_cons (a b : Byte) (m bs : List Byte) :
    store (a :: m) 0 (b :: bs) = b :: store m 0 bs := by
  unfold store
  simp

theorem store_zero_nil (m : List Byte) : store m 0 [] = m := by
  unfold store
  simp

theorem load8_cons_zero (a : Byte) (m : List Byte) : load8 (a :: m) 0 = a := rfl

theorem load8_cons_succ (a : Byte) (m : List Byte) (n : Nat) :
    load8 (a :: m) (n + 1) = load8 m n := rfl

theorem load8_take (m : List Byte) (n i : Nat) (h : i < n) : load8 (m.take n) i = load8 m i := by
  unfold load8
  simp [List.getElem?_take, h]

theorem store_two_eq_set (m : List Byte) (off : Nat) (x y : Byte) (h : off + 2 ≤ m.length) :
    store m off [x, y] = (m.set off x).set (off + 1) y := by
  induction m generalizing off with
  | nil => simp at h
  | cons a m ih =>
    cases off with
    | zero =>
      cases m with
      | nil => simp at h
      | cons b m => simp [store_zero_cons, store_zero_nil]
    | succ off =>
      rw [store_cons_succ, ih off (by simpa using h)]
      simp

theorem store_one_eq_set (m : List Byte) (off : Nat) (x : Byte) (h : off + 1 ≤ m.length) :
    store m off [x] = m.set off x := by
  induction m generalizing off with
  | nil => simp at h
  | cons a m ih =>
    cases off with
    | zero => simp [store_zero_cons, store_zero_nil]
    | succ off =>
      rw [store_cons_succ, ih off (by simpa using h)]
      simp

theorem wsum_aux_set (b : Bool) (l : List Byte) (i : Nat) (v : Byte) (h : i < l.length) :
    wsum_aux b (l.set i v) + wt b i * (load8 l i).val = wsum_aux b l + wt b i * v.val := by
  induction l generalizing b i with
  | nil => simp at h
  | cons a l ih =>
    cases i with
    | zero =>
      cases b <;> simp [wsum_aux, wt, load8] <;> omega
    | succ i =>
      have hi : i < l.length := by simpa using h
      cases b
      · have := ih true i hi
        simp only [List.set_cons_succ, wsum_aux, wt, load8_cons_succ, Bool.not_false]
        omega
      · have := ih false i hi
        simp only [List.set_cons_succ, wsum_aux, wt, load8_cons_succ, Bool.not_true]
        omega

theorem wt_add_two (b : Bool) (i : Nat) : wt b (i + 2) = wt b i := by
  simp [wt]

theorem wt_true (i : Nat) : wt true i = if i % 2 = 0 then 256 else 1 := by
  induction i using Nat.strong_induction_on with
  | _ i ih =>
    match i with
    | 0 => rfl
    | 1 => rfl
    | i + 2 =>
      rw [wt_add_two, ih i (by omega)]
      have : (i + 2) % 2 = i % 2 := by omega
      rw [this]

theorem wsum_set (l : List Byte) (i : Nat) (v : Byte) (h : i < l.length) :
    wsum (l.set i v) + wt true i * (load8 l i).val = wsum l + wt true i * v.val :=
  wsum_aux_set true l i v h

/-- Storing two octets at an even offset changes the word sum of the first
`len` octets by the difference of the words. -/
theorem wsum_take_store_two (data : List Byte) (len off : Nat) (x y : Byte)
    (hbuf : len ≤ data.length) (hoff : off % 2 = 0) (hin : off + 2 ≤ len) :
    wsum ((store data off [x, y]).take len) +
        ((load8 data off).val * 256 + (load8 data (off + 1)).val) =
      wsum (data.take len) + (x.val * 256 + y.val) := by
  rw [store_two_eq_set data off x y (by omega), List.set_take, List.set_take]
  have hl : (data.take len).length = len := by simp [List.length_take, hbuf]
  have h1 := wsum_set (data.take len) off x (by omega)
  have h2 := wsum_set ((data.take len).set off x) (off + 1) y (by simp; omega)
  have e1 : load8 ((data.take len).set off x) (off + 1) = load8 data (off + 1) := by
    unfold load8
    simp only [List.getD_eq_getElem?_getD, List.getElem?_set, List.getElem?_take]
    have hne : ¬ off = off + 1 := by omega
    have hlt : off + 1 < len := by omega
    simp only [hne, hlt, if_true, if_false]
  rw [e1] at h2
  rw [load8_take data len off (by omega)] at h1
  rw [wt_true] at h1 h2
  have o1 : (off + 1) % 2 ≠ 0 := by omega
  simp only [hoff, o1, if_true, if_false] at h1 h2
  omega

theorem checksum_eq_zero_iff (T : Target) (data : List Byte) (len : Nat) (hlen : len ≤ 65535) :
    checksum T data len = 0 ↔ fold16 (wsum (data.take len)) = 65535 := by
  have hf := fold16_le (wsum (data.take len))
  rw [checksum_eq T data len hlen, htons_eq_zero T _ (ck_le _ _)]
  unfold ck
  omega

theorem be16_val (c : Nat) (hc : c ≤ 65535) : (byte (c / 256)).val * 256 + (byte c).val = c := by
  unfold byte
  simp only
  omega

/-- Writing the checksum of a buffer into a zero 16-bit field at an even offset
makes the checksum of the buffer zero. -/
theorem checksum_store_self (T : Target) (data : List Byte) (len off : Nat)
    (hlen : len ≤ 65535) (hbuf : len ≤ data.length) (hoff : off % 2 = 0) (hin : off + 2 ≤ len)
    (h0 : load8 data off = 0) (h1 : load8 data (off + 1) = 0) :
    checksum T (store data off (bytes16 T (checksum T data len))) len = 0 := by
  rw [checksum_eq_zero_iff _ _ _ hlen, checksum_eq T data len hlen, bytes16_htons]
  have hs := wsum_take_store_two data len off (byte (ck data len / 256)) (byte (ck data len))
    hbuf hoff hin
  rw [h0, h1, be16_val _ (ck_le _ _)] at hs
  have hlt := wsum_take_lt (store data off [byte (ck data len / 256), byte (ck data len)]) len hlen
  obtain ⟨a1, a2, a3⟩ := fold16_spec _ hlt
  obtain ⟨b1, b2, b3⟩ := fold16_spec _ (wsum_take_lt data len hlen)
  have hz : ((0 : Byte).val) = 0 := rfl
  rw [hz] at hs
  have hck : ck data len = 65535 - fold16 (wsum (data.take len)) := rfl
  generalize wsum (List.take len (store data off [byte (ck data len / 256), byte (ck data len)])) = s2 at *
  rw [hck] at hs
  generalize wsum (List.take len data) = s1 at *
  generalize fold16 s1 = f1 at *
  generalize fold16 s2 = f2 at *
  omega

theorem replicate_sizeof (T : Target) :
    List.replicate (sizeof_udp_dhcp_packet T) (0 : Byte) =
      0 :: 0 :: 0 :: 0 :: 0 :: 0 :: 0 :: 0 :: 0 :: 0 :: 0 :: 0 :: 0 :: 0 ::
      0 :: 0 :: 0 :: 0 :: 0 :: 0 :: 0 :: 0 :: 0 :: 0 :: 0 :: 0 :: 0 :: 0 ::
      List.replicate T.sizeof_dhcp_message 0 := by
  have h : sizeof_udp_dhcp_packet T = T.sizeof_dhcp_message + 28 := by
    unfold sizeof_udp_dhcp_packet sizeof_ip sizeof_udphdr
    omega
  rw [h]
  rfl

theorem store_zero_replicate (n : Nat) (data : List Byte) :
    store (List.replicate n (0 : Byte)) 0 data = data ++ List.replicate (n - data.length) 0 := by
  unfold store
  simp

theorem ite_store_dst (m : List Byte) (o : Nat) (dest : in_addr) :
    (if dest = ⟨0, 0, 0, 0⟩ then store m o INADDR_BROADCAST.bytes else store m o dest.bytes) =
      store m o (ip_dst_of dest).bytes := by
  unfold ip_dst_of
  split <;> rfl

theorem bytes16_checksum (T : Target) (d : List Byte) (n : Nat) :
    bytes16 T (checksum T d n) = [ckb0 T d n, ckb1 T d n] := by
  unfold ckb0 ckb1 bytes16
  split <;> rfl

theorem vhl_make : byte ((byte (IPVERSION % 16 * 16 + (0 : Byte).val % 16)).val / 16 * 16 + 5 % 16)
    = 69 := by
  decide

theorem byte_zero : byte 0 = 0 := rfl

theorem make_udp_packet_eq (T : Target) (data : List Byte) (source dest : in_addr) :
    make_udp_packet T data source dest =
      (frame_of T data source dest, ((sizeof_ip + sizeof_udphdr + data.length : Nat) : Int)) := by
  unfold make_udp_packet
  simp only [ite_store_dst]
  simp only [replicate_sizeof, off_dhcp, off_ip_p, off_ip_src, off_ip_dst, off_uh_sport,
    off_uh_dport, off_uh_ulen, off_ip_len, off_uh_sum, off_ip_vhl, off_ip_id, off_ip_tos,
    off_ip_off, off_ip_ttl, off_ip_sum, in_addr.bytes,
    store_cons_succ, store_zero_cons, store_zero_nil, store_zero_replicate,
    bytes16_htons, bytes16_zero, bytes16_load16, load8_cons_zero, load8_cons_succ,
    bytes16_checksum, vhl_make]
  simp only [frame_of, ip_stage, udp_stage, header, dhcp_area, Nat.zero_div, byte_zero]

theorem valid_udp_packet_ret_cases (T : Target) (uninit : Nat → Byte) (data : List Byte)
    (data_len : Nat) (from_addr : Option in_addr) :
    (valid_udp_packet T uninit data data_len from_addr).ret = 0 ∨
      (valid_udp_packet T uninit data data_len from_addr).ret = -1 := by
  unfold valid_udp_packet
  simp only
  split_ifs <;> simp

theorem valid_udp_packet_ret_zero_iff (T : Target) (uninit : Nat → Byte) (data : List Byte)
    (data_len : Nat) (from_addr : Option in_addr) :
    (valid_udp_packet T uninit data data_len from_addr).ret = 0 ↔
      (sizeof_ip ≤ data_len ∧ data_len ≤ sizeof_udp_dhcp_packet T ∧
        checksum T (packet_copy T uninit data data_len) sizeof_ip = 0 ∧
        ntohs T (load16 T (packet_copy T uninit data data_len) off_ip_len) ≤ data_len ∧
        (load16 T (packet_copy T uninit data data_len) off_uh_sum = 0 ∨
          checksum T (udp_pseudo T (packet_copy T uninit data data_len))
              (ntohs T (load16 T (packet_copy T uninit data data_len) off_ip_len)) =
            load16 T (packet_copy T uninit data data_len) off_uh_sum)) := by
  unfold valid_udp_packet
  simp only
  split_ifs with h1 h2 h3 h4 h5
  · simp; omega
  · simp; omega
  · simp; intro _ _ h; exact absurd h h3
  · simp; intro _ _ _; omega
  · simp only [Int.reduceNeg, Int.neg_eq_zero, one_ne_zero, false_iff, not_and, not_or]
    intro _ _ _ _
    exact h5
  · simp only [true_iff]
    refine ⟨by omega, by omega, ?_, by omega, ?_⟩
    · exact not_not.mp h3
    · by_cases hz : load16 T (packet_copy T uninit data data_len) off_uh_sum = 0
      · exact Or.inl hz
      · right
        by_contra hne
        exact h5 ⟨hz, hne⟩

theorem valid_udp_packet_from (T : Target) (uninit : Nat → Byte) (data : List Byte)
    (data_len : Nat) (from_addr : Option in_addr) :
    (valid_udp_packet T uninit data data_len from_addr).from_addr =
      if data_len < sizeof_ip then from_addr.map (fun _ => INADDR_ANY)
      else from_addr.map (fun _ => load_addr (packet_copy T uninit data data_len) off_ip_src) := by
  unfold valid_udp_packet
  simp only
  split_ifs <;> rfl

theorem store_zero_eq (m bs : List Byte) : store m 0 bs = bs ++ m.drop bs.length := by
  unfold store
  simp

theorem header_length (vhl tos : Byte) (len ipoff : Nat) (ttl c0 c1 : Byte) (src dst : in_addr)
    (sport dport ulen : Nat) (u0 u1 : Byte) (rest : List Byte) :
    (header vhl tos len ipoff ttl c0 c1 src dst sport dport ulen u0 u1 rest).length =
      28 + rest.length := by
  simp only [header, List.length_cons]
  omega

theorem header_take (vhl tos : Byte) (len ipoff : Nat) (ttl c0 c1 : Byte) (src dst : in_addr)
    (sport dport ulen : Nat) (u0 u1 : Byte) (rest : List Byte) (k : Nat) :
    (header vhl tos len ipoff ttl c0 c1 src dst sport dport ulen u0 u1 rest).take (28 + k) =
      header vhl tos len ipoff ttl c0 c1 src dst sport dport ulen u0 u1 (rest.take k) := by
  rw [Nat.add_comm]
  rfl

theorem header_append (vhl tos : Byte) (len ipoff : Nat) (ttl c0 c1 : Byte) (src dst : in_addr)
    (sport dport ulen : Nat) (u0 u1 : Byte) (rest more : List Byte) :
    header vhl tos len ipoff ttl c0 c1 src dst sport dport ulen u0 u1 rest ++ more =
      header vhl tos len ipoff ttl c0 c1 src dst sport dport ulen u0 u1 (rest ++ more) := rfl

theorem dhcp_area_length (T : Target) (data : List Byte)
    (hL : data.length ≤ T.sizeof_dhcp_message) :
    (dhcp_area T data).length = T.sizeof_dhcp_message := by
  simp only [dhcp_area, List.length_append, List.length_replicate]
  omega

theorem dhcp_area_take (T : Target) (data : List Byte) :
    (dhcp_area T data).take data.length = data := by
  simp [dhcp_area]

theorem frame_of_length (T : Target) (data : List Byte) (source dest : in_addr)
    (hL : data.length ≤ T.sizeof_dhcp_message) :
    (frame_of T data source dest).length = sizeof_udp_dhcp_packet T := by
  rw [frame_of, header_length, dhcp_area_length T data hL]
  rfl

/-- The octets of the stack behind the part of `packet` that the `memcpy` of
`valid_udp_packet` fills. -/
theorem packet_copy_eq (T : Target) (uninit : Nat → Byte) (data : List Byte) (data_len : Nat)
    (h1 : data_len ≤ data.length) (h2 : data_len ≤ sizeof_udp_dhcp_packet T) :
    packet_copy T uninit data data_len =
      data.take data_len ++ (local_object uninit (sizeof_udp_dhcp_packet T)).drop data_len := by
  unfold packet_copy
  rw [Nat.min_eq_left h2, store_zero_eq]
  simp [List.length_take, h1]

theorem packet_copy_frame (T : Target) (uninit : Nat → Byte) (data : List Byte)
    (source dest : in_addr) (hL : data.length ≤ T.sizeof_dhcp_message) :
    packet_copy T uninit (frame_of T data source dest) (sizeof_ip + sizeof_udphdr + data.length) =
      header 69 (byte IPTOS_LOWDELAY) (sizeof_ip + sizeof_udphdr + data.length) IP_DF
        (byte IPDEFTTL)
        (ckb0 T (ip_stage T data source dest) sizeof_ip)
        (ckb1 T (ip_stage T data source dest) sizeof_ip) source (ip_dst_of dest)
        T.DHCP_CLIENT_PORT T.DHCP_SERVER_PORT (sizeof_udphdr + data.length)
        (ckb0 T (udp_stage T data source dest) (sizeof_udp_dhcp_packet T))
        (ckb1 T (udp_stage T data source dest) (sizeof_udp_dhcp_packet T))
        (data ++ (local_object uninit (sizeof_udp_dhcp_packet T)).drop
          (sizeof_ip + sizeof_udphdr + data.length)) := by
  have hlen := frame_of_length T data source dest hL
  have hs : sizeof_udp_dhcp_packet T = 28 + T.sizeof_dhcp_message := rfl
  have hn : sizeof_ip + sizeof_udphdr + data.length = 28 + data.length := rfl
  rw [packet_copy_eq T uninit _ _ (by omega) (by omega)]
  rw [hn, frame_of, header_take, dhcp_area_take, header_append, hn]

theorem take_take_le (l : List Byte) (a b : Nat) (h : a ≤ b) :
    (l.take b).take a = l.take a := by
  rw [List.take_take, Nat.min_eq_left h]

theorem checksum_congr_take (T : Target) (l1 l2 : List Byte) (len : Nat)
    (h : l1.take len = l2.take len) : checksum T l1 len = checksum T l2 len := by
  have hle : len % 65536 ≤ len := Nat.mod_le _ _
  have e : l1.take (len % 65536) = l2.take (len % 65536) := by
    rw [← take_take_le l1 _ _ hle, ← take_take_le l2 _ _ hle, h]
  unfold checksum
  rw [e]

theorem wsum_aux_append_zeros (b : Bool) (l : List Byte) (n : Nat) :
    wsum_aux b (l ++ List.replicate n 0) = wsum_aux b l := by
  induction l generalizing b with
  | nil =>
    induction n generalizing b with
    | zero => simp [wsum_aux]
    | succ n ih =>
      cases b
      · simpa [List.replicate_succ, wsum_aux] using ih true
      · simpa [List.replicate_succ, wsum_aux] using ih false
  | cons a l ih =>
    cases b
    · simp [wsum_aux, ih true]
    · simp [wsum_aux, ih false]

theorem load16_ckb (T : Target) (m : List Byte) (off : Nat) (d : List Byte) (n : Nat)
    (h0 : load8 m off = ckb0 T d n) (h1 : load8 m (off + 1) = ckb1 T d n) :
    load16 T m off = checksum T d n := by
  have hc : checksum T d n < 65536 := by
    unfold checksum
    exact Nat.mod_lt _ (by decide)
  unfold load16
  rw [h0, h1]
  unfold ckb0 ckb1 bytes16
  split
  · simp only [load8, List.getD_cons_zero, List.getD_cons_succ, byte]
    omega
  · simp only [load8, List.getD_cons_zero, List.getD_cons_succ, byte]
    omega

theorem vhl_clear (x : Byte) :
    byte (0 % 16 * 16 + (byte (x.val / 16 * 16 + 0 % 16)).val % 16) = 0 := by
  apply Fin.ext
  simp only [byte]
  have hx := x.isLt
  show (0 % 16 * 16 + (x.val / 16 * 16 + 0 % 16) % 256 % 16) % 256 = 0
  omega

/-- The copy `valid_udp_packet` takes the UDP checksum of, for a packet given
field by field. -/
theorem udp_pseudo_header (T : Target) (vhl tos : Byte) (len ipoff : Nat) (ttl c0 c1 : Byte)
    (src dst : in_addr) (sport dport ulen : Nat) (u0 u1 : Byte) (rest : List Byte) :
    udp_pseudo T (header vhl tos len ipoff ttl c0 c1 src dst sport dport ulen u0 u1 rest) =
      header 0 0 ulen 0 0 0 0 src dst sport dport ulen 0 0 rest := by
  unfold udp_pseudo
  simp only [header, off_uh_sum, off_ip_vhl, off_ip_tos, off_ip_len, off_uh_ulen, off_ip_id,
    off_ip_off, off_ip_ttl, off_ip_sum,
    store_cons_succ, store_zero_cons, store_zero_nil,
    bytes16_zero, bytes16_load16, load8_cons_zero, load8_cons_succ, vhl_clear, byte_zero,
    Nat.zero_div]

/-- The IP header checksum of a frame of `make_udp_packet` verifies. -/
theorem frame_ip_checksum (T : Target) (data : List Byte) (source dest : in_addr)
    (rest : List Byte) :
    checksum T
      (header 69 (byte IPTOS_LOWDELAY) (sizeof_ip + sizeof_udphdr + data.length) IP_DF
        (byte IPDEFTTL)
        (ckb0 T (ip_stage T data source dest) sizeof_ip)
        (ckb1 T (ip_stage T data source dest) sizeof_ip) source (ip_dst_of dest)
        T.DHCP_CLIENT_PORT T.DHCP_SERVER_PORT (sizeof_udphdr + data.length)
        (ckb0 T (udp_stage T data source dest) (sizeof_udp_dhcp_packet T))
        (ckb1 T (udp_stage T data source dest) (sizeof_udp_dhcp_packet T)) rest) sizeof_ip = 0 := by
  have hI : sizeof_ip ≤ (ip_stage T data source dest).length := by
    rw [ip_stage, header_length]
    unfold sizeof_ip
    omega
  have h := checksum_store_self T (ip_stage T data source dest) sizeof_ip off_ip_sum
    (by decide) hI (by decide) (by decide) rfl rfl
  rw [← h]
  apply checksum_congr_take
  rw [bytes16_checksum]
  rfl

theorem ntohs_load16 (T : Target) (m : List Byte) (off : Nat) :
    ntohs T (load16 T m off) = (load8 m off).val * 256 + (load8 m (off + 1)).val := by
  have h0 := (load8 m off).isLt
  have h1 := (load8 m (off + 1)).isLt
  rw [ntohs, load16_eq, htons_htons]
  omega

theorem header_ip_len (T : Target) (vhl tos : Byte) (len ipoff : Nat) (ttl c0 c1 : Byte)
    (src dst : in_addr) (sport dport ulen : Nat) (u0 u1 : Byte) (rest : List Byte)
    (h : len ≤ 65535) :
    ntohs T (load16 T (header vhl tos len ipoff ttl c0 c1 src dst sport dport ulen u0 u1 rest)
      off_ip_len) = len := by
  rw [ntohs_load16]
  exact be16_val len h

theorem wsum_header_zeros (vhl tos : Byte) (len ipoff : Nat) (ttl c0 c1 : Byte)
    (src dst : in_addr) (sport dport ulen : Nat) (u0 u1 : Byte) (rest : List Byte) (n : Nat) :
    wsum (header vhl tos len ipoff ttl c0 c1 src dst sport dport ulen u0 u1
      (rest ++ List.replicate n 0)) =
    wsum (header vhl tos len ipoff ttl c0 c1 src dst sport dport ulen u0 u1 rest) := by
  rw [← header_append, wsum, wsum_aux_append_zeros]
  rfl

/-- The UDP checksum `valid_udp_packet` recomputes over the received octets is
the one `make_udp_packet` computed over the whole zero-padded object. -/
theorem frame_udp_checksum (T : Target) (data : List Byte) (source dest : in_addr)
    (more : List Byte) (hL : data.length ≤ T.sizeof_dhcp_message)
    (hD : sizeof_udp_dhcp_packet T ≤ 65535) :
    checksum T
      (header 0 0 (sizeof_udphdr + data.length) 0 0 0 0 source (ip_dst_of dest)
        T.DHCP_CLIENT_PORT T.DHCP_SERVER_PORT (sizeof_udphdr + data.length) 0 0 (data ++ more))
      (sizeof_ip + sizeof_udphdr + data.length) =
    checksum T (udp_stage T data source dest) (sizeof_udp_dhcp_packet T) := by
  have hs : sizeof_udp_dhcp_packet T = 28 + T.sizeof_dhcp_message := rfl
  have hn : sizeof_ip + sizeof_udphdr + data.length = 28 + data.length := rfl
  rw [checksum_eq T _ _ (by omega), checksum_eq T _ _ hD]
  congr 1
  unfold ck
  congr 2
  rw [hn, header_take, List.take_left']
  · have hfull : (udp_stage T data source dest).take (sizeof_udp_dhcp_packet T) =
        udp_stage T data source dest := by
      apply List.take_of_length_le
      rw [udp_stage, header_length, dhcp_area_length T data hL, hs]
    rw [hfull, udp_stage, dhcp_area, wsum_header_zeros]
  · rfl

theorem header_load8_dhcp (vhl tos : Byte) (len ipoff : Nat) (ttl c0 c1 : Byte)
    (src dst : in_addr) (sport dport ulen : Nat) (u0 u1 : Byte) (rest : List Byte) (k : Nat) :
    load8 (header vhl tos len ipoff ttl c0 c1 src dst sport dport ulen u0 u1 rest) (28 + k) =
      load8 rest k := by
  rw [Nat.add_comm]
  rfl

theorem header_drop (vhl tos : Byte) (len ipoff : Nat) (ttl c0 c1 : Byte)
    (src dst : in_addr) (sport dport ulen : Nat) (u0 u1 : Byte) (rest : List Byte) :
    (header vhl tos len ipoff ttl c0 c1 src dst sport dport ulen u0 u1 rest).drop 28 = rest := rfl

theorem dhcp_area_load8_zero (T : Target) (data : List Byte) (k : Nat) (h : data.length ≤ k) :
    load8 (dhcp_area T data) k = 0 := by
  unfold load8 dhcp_area
  rw [List.getD_eq_getElem?_getD, List.getElem?_append_right h]
  by_cases hk : k - data.length < T.sizeof_dhcp_message - data.length
  · rw [List.getElem?_replicate_of_lt hk]
    rfl
  · rw [List.getElem?_eq_none (by simpa using hk)]
    rfl

theorem packet_copy_load8 (T : Target) (uninit : Nat → Byte) (data : List Byte) (data_len i : Nat)
    (h1 : data_len ≤ data.length) (h2 : data_len ≤ sizeof_udp_dhcp_packet T) (hi : i < data_len) :
    load8 (packet_copy T uninit data data_len) i = load8 data i := by
  rw [packet_copy_eq T uninit data data_len h1 h2]
  unfold load8
  rw [List.getD_eq_getElem?_getD, List.getD_eq_getElem?_getD,
    List.getElem?_append_left (by simp [List.length_take]; omega), List.getElem?_take_of_lt hi]

theorem packet_copy_take (T : Target) (uninit : Nat → Byte) (data : List Byte) (data_len k : Nat)
    (h1 : data_len ≤ data.length) (h2 : data_len ≤ sizeof_udp_dhcp_packet T) (hk : k ≤ data_len) :
    (packet_copy T uninit data data_len).take k = data.take k := by
  rw [packet_copy_eq T uninit data data_len h1 h2,
    List.take_append_of_le_length (by simp [List.length_take]; omega), take_take_le _ _ _ hk]

theorem htonl_s_addr (T : Target) (a : in_addr) : htonl T (a.s_addr T) = be32 a := by
  have h0 := a.s0.isLt
  have h1 := a.s1.isLt
  have h2 := a.s2.isLt
  have h3 := a.s3.isLt
  unfold htonl in_addr.s_addr be32
  split
  · omega
  · omega

theorem inet_ntocidr_eq (T : Target) (a : in_addr) :
    inet_ntocidr T a = inet_ntocidr_loop 33 (be32 a) 0 := by
  unfold inet_ntocidr
  rw [htonl_s_addr]

theorem inet_cidrtoaddr_old (cidr : Int) (old : in_addr) (h1 : 1 ≤ cidr) (h2 : cidr ≤ 32) :
    inet_cidrtoaddr cidr old = inet_cidrtoaddr cidr ⟨0, 0, 0, 0⟩ := by
  unfold inet_cidrtoaddr
  rw [if_neg (by omega), if_neg (by omega)]


theorem checksum_eq_of_wsum (T : Target) (d1 d2 : List Byte) (n1 n2 : Nat)
    (h1 : n1 ≤ 65535) (h2 : n2 ≤ 65535) (h : wsum (d1.take n1) = wsum (d2.take n2)) :
    checksum T d1 n1 = checksum T d2 n2 := by
  rw [checksum_eq T d1 n1 h1, checksum_eq T d2 n2 h2]
  unfold ck
  rw [h]

theorem udp_stage_checksum_pseudo (T : Target) (data : List Byte) (source dest : in_addr)
    (hL : data.length ≤ T.sizeof_dhcp_message) (hD : sizeof_udp_dhcp_packet T ≤ 65535) :
    checksum T (udp_stage T data source dest) (sizeof_udp_dhcp_packet T) =
      checksum T (udp_pseudo_datagram source (ip_dst_of dest) T.DHCP_CLIENT_PORT
        T.DHCP_SERVER_PORT data) (12 + sizeof_udphdr + data.length) := by
  have hs : sizeof_udp_dhcp_packet T = 28 + T.sizeof_dhcp_message := rfl
  have h8 : sizeof_udphdr = 8 := rfl
  apply checksum_eq_of_wsum T _ _ _ _ hD (by omega)
  have hfull : (udp_stage T data source dest).take (sizeof_udp_dhcp_packet T) =
      udp_stage T data source dest := by
    apply List.take_of_length_le
    rw [udp_stage, header_length, dhcp_area_length T data hL, hs]
  have hfull2 : (udp_pseudo_datagram source (ip_dst_of dest) T.DHCP_CLIENT_PORT
      T.DHCP_SERVER_PORT data).take (12 + sizeof_udphdr + data.length) =
      udp_pseudo_datagram source (ip_dst_of dest) T.DHCP_CLIENT_PORT T.DHCP_SERVER_PORT data := by
    apply List.take_of_length_le
    simp only [udp_pseudo_datagram, List.length_cons]
    omega
  rw [hfull, hfull2, udp_stage, dhcp_area, wsum_header_zeros]
  have hz : ((0 : Byte).val) = 0 := rfl
  simp only [header, udp_pseudo_datagram, wsum, wsum_aux, hz, Nat.zero_div, byte_zero]
  omega

theorem D6_NEXT_OPTION_eq (T : Target) (mem : List Byte) (o : Nat) :
    D6_NEXT_OPTION T mem o = o + 4 + load16_be mem (o + 2) := by
  unfold D6_NEXT_OPTION load16_be
  rw [ntohs_load16]
  rfl

theorem encode_d6_options_append (xs ys : List d6_option) :
    encode_d6_options (xs ++ ys) = encode_d6_options xs ++ encode_d6_options ys := by
  induction xs with
  | nil => rfl
  | cons x xs ih => simp [encode_d6_options, ih]

theorem encode_d6_options_split (os : List d6_option) (k : Nat) (hk : k < os.length) :
    encode_d6_options os =
      encode_d6_options (os.take k) ++ (encode_d6_option (os.get ⟨k, hk⟩) ++
        encode_d6_options (os.drop (k + 1))) := by
  have h : os = os.take k ++ (os.get ⟨k, hk⟩ :: os.drop (k + 1)) := by
    conv_lhs => rw [← List.take_append_drop k os, List.drop_eq_getElem_cons hk]
    rfl
  conv_lhs => rw [h]
  rw [encode_d6_options_append]
  rfl

theorem load8_append_right (a b : List Byte) (j : Nat) :
    load8 (a ++ b) (a.length + j) = load8 b j := by
  unfold load8
  rw [List.getD_eq_getElem?_getD, List.getD_eq_getElem?_getD,
    List.getElem?_append_right (by omega)]
  congr 2
  omega

theorem d6_offset_succ (os : List d6_option) (k : Nat) (hk : k < os.length) :
    d6_offset os (k + 1) = d6_offset os k + 4 + (os.get ⟨k, hk⟩).data.length := by
  unfold d6_offset
  have h : os.take (k + 1) = os.take k ++ [os.get ⟨k, hk⟩] := by
    rw [List.get_eq_getElem, List.take_succ, List.getElem?_eq_getElem hk]
    rfl
  rw [h, encode_d6_options_append]
  simp only [encode_d6_options, encode_d6_option, List.length_append, List.length_cons,
    List.append_nil]
  omega

/-- The message seen from the cursor of option `k`: what lies before it, the
option, what follows. -/
theorem d6_message_at (hdr : List Byte) (os : List d6_option) (k : Nat) (hk : k < os.length)
    (hh : hdr.length = 4) :
    ∃ pre post, hdr ++ encode_d6_options os =
        pre ++ (encode_d6_option (os.get ⟨k, hk⟩) ++ post) ∧ pre.length = d6_offset os k := by
  refine ⟨hdr ++ encode_d6_options (os.take k), encode_d6_options (os.drop (k + 1)), ?_, ?_⟩
  · conv_lhs => rw [encode_d6_options_split os k hk]
    simp only [List.append_assoc]
  · simp only [List.length_append, hh, d6_offset, sizeof_dhcp6_message]

theorem d6_iterate (T : Target) (hdr : List Byte) (os : List d6_option) (hh : hdr.length = 4)
    (hlen : ∀ o ∈ os, o.data.length ≤ 65535) (k : Nat) (hk : k ≤ os.length) :
    Nat.iterate (D6_NEXT_OPTION T (hdr ++ encode_d6_options os)) k (D6_FIRST_OPTION 0) =
      d6_offset os k := by
  induction k with
  | zero => simp [D6_FIRST_OPTION, d6_offset, encode_d6_options]
  | succ k ih =>
    have hk' : k < os.length := by omega
    rw [Function.iterate_succ_apply', ih (by omega), D6_NEXT_OPTION_eq,
      d6_offset_succ os k hk']
    obtain ⟨pre, post, hm, hp⟩ := d6_message_at hdr os k hk' hh
    rw [hm, ← hp]
    unfold load16_be
    rw [load8_append_right, show pre.length + 2 + 1 = pre.length + 3 by omega,
      load8_append_right]
    have hl := hlen _ (List.get_mem os k hk')
    show pre.length + 4 + ((byte ((os.get ⟨k, hk'⟩).data.length / 256)).val * 256 +
      (byte (os.get ⟨k, hk'⟩).data.length).val) = _
    rw [be16_val _ hl]

theorem isxdigit_ne_zero (c : Byte) (h : isxdigit c = true) : c ≠ 0 := by
  intro hc
  rw [hc] at h
  exact absurd h (by decide)

theorem is_lower_xdigit_isxdigit (c : Byte) (h : is_lower_xdigit c = true) :
    isxdigit c = true := by
  unfold is_lower_xdigit at h
  unfold isxdigit
  simp only [Bool.or_eq_true, Bool.and_eq_true, decide_eq_true_eq] at h ⊢
  omega

theorem xdigit_val_lt (c : Byte) : xdigit_val c < 16 := by
  unfold xdigit_val
  split
  · omega
  · split
    · omega
    · split <;> omega

theorem hex_digit_val (v : Nat) (h : v < 16) :
    (hex_digit v).val = if v < 10 then 48 + v else 97 + (v - 10) := by
  unfold hex_digit byte
  split
  · simp only
    omega
  · simp only
    omega

theorem hex_digit_lower (v : Nat) (h : v < 16) : is_lower_xdigit (hex_digit v) = true := by
  unfold is_lower_xdigit
  rw [hex_digit_val v h]
  simp only [Bool.or_eq_true, Bool.and_eq_true, decide_eq_true_eq]
  split <;> omega

theorem xdigit_val_hex_digit (v : Nat) (h : v < 16) : xdigit_val (hex_digit v) = v := by
  unfold xdigit_val
  rw [hex_digit_val v h]
  split
  · rw [if_pos (by omega)]
    omega
  · rw [if_neg (by omega), if_pos (by omega)]
    omega

theorem hex_digit_xdigit_val (c : Byte) (h : is_lower_xdigit c = true) :
    hex_digit (xdigit_val c) = c := by
  have hc := c.isLt
  apply Fin.ext
  rw [hex_digit_val _ (xdigit_val_lt c)]
  unfold is_lower_xdigit at h
  simp only [Bool.or_eq_true, Bool.and_eq_true, decide_eq_true_eq] at h
  rcases h with h | h
  · have e : xdigit_val c = c.val - 48 := by
      unfold xdigit_val
      rw [if_pos h]
    rw [e, if_pos (by omega)]
    omega
  · have e : xdigit_val c = c.val - 97 + 10 := by
      unfold xdigit_val
      rw [if_neg (by omega), if_pos h]
    rw [e, if_neg (by omega)]
    omega

theorem strtol16_octet_digits (b : Byte) :
    strtol16 (octet_digits b).1 (octet_digits b).2 = b := by
  have hb := b.isLt
  unfold strtol16 octet_digits
  simp only
  rw [xdigit_val_hex_digit _ (by omega), xdigit_val_hex_digit _ (by omega)]
  apply Fin.ext
  simp only [byte]
  omega

theorem octet_digits_strtol16 (q : Byte × Byte) (h1 : is_lower_xdigit q.1 = true)
    (h2 : is_lower_xdigit q.2 = true) : octet_digits (strtol16 q.1 q.2) = q := by
  have a1 := xdigit_val_lt q.1
  have a2 := xdigit_val_lt q.2
  have e : (strtol16 q.1 q.2).val = xdigit_val q.1 * 16 + xdigit_val q.2 := by
    simp only [strtol16, byte]
    omega
  unfold octet_digits
  rw [e]
  have d1 : (xdigit_val q.1 * 16 + xdigit_val q.2) / 16 = xdigit_val q.1 := by omega
  have d2 : (xdigit_val q.1 * 16 + xdigit_val q.2) % 16 = xdigit_val q.2 := by omega
  rw [d1, d2, hex_digit_xdigit_val _ h1, hex_digit_xdigit_val _ h2]

theorem colon_hex_length (ps : List (Byte × Byte)) (h : ps ≠ []) :
    (colon_hex ps).length = 3 * ps.length - 1 := by
  induction ps using colon_hex.induct with
  | case1 => exact absurd rfl h
  | case2 q => rfl
  | case3 q r rest ih =>
    have := ih (by simp)
    simp only [colon_hex, List.length_cons] at this ⊢
    omega

/-- The loop of `hwaddr_ntoa` appends the colon-hex text of the octets, with a
colon in front when it is not the first round. -/
theorem hwaddr_ntoa_loop_eq (bs : List Byte) (i : Nat) (p : List Byte) (h : bs ≠ []) :
    hwaddr_ntoa_loop bs i p =
      p ++ (if i > 0 then [colon] else []) ++ colon_hex (bs.map octet_digits) := by
  induction bs generalizing i p with
  | nil => exact absurd rfl h
  | cons b rest ih =>
    cases rest with
    | nil =>
      simp only [hwaddr_ntoa_loop, List.map, colon_hex, sprintf_02x, octet_digits]
      split <;> simp
    | cons c rest =>
      rw [hwaddr_ntoa_loop, ih (i + 1) _ (by simp)]
      simp only [List.map, colon_hex, sprintf_02x, octet_digits]
      split <;> simp

theorem hwaddr_ntoa_eq (H : Nat) (b : List Byte) (n : Nat) (h1 : 1 ≤ n) (h2 : n ≤ H)
    (hb : b.length = n) :
    hwaddr_ntoa H b n = colon_hex (b.map octet_digits) := by
  unfold hwaddr_ntoa
  rw [Nat.min_eq_left h2, List.take_of_length_le (by omega),
    hwaddr_ntoa_loop_eq b 0 [] (by intro h; rw [h] at hb; simp at hb; omega)]
  simp

/-- The loop of `hwaddr_aton` on a colon-hex text of hexadecimal digits. -/
theorem hwaddr_aton_loop_colon_hex (ps : List (Byte × Byte)) (bp : Option (List Byte))
    (len : Nat) (hne : ps ≠ [])
    (hx : ∀ q ∈ ps, isxdigit q.1 = true ∧ isxdigit q.2 = true) (h2 : 2 ≤ len + ps.length) :
    hwaddr_aton_loop (colon_hex ps) bp len =
      { ret := len + ps.length,
        buffer := bp.map (fun b => b ++ ps.map (fun q => strtol16 q.1 q.2)),
        errno_EINVAL := false } := by
  induction ps using colon_hex.induct generalizing bp len with
  | case1 => exact absurd rfl hne
  | case2 q =>
    obtain ⟨x1, x2⟩ := hx q (List.mem_singleton_self q)
    have n1 := isxdigit_ne_zero _ x1
    simp only [List.length_singleton] at h2
    simp only [colon_hex, hwaddr_aton_loop, n1, x1, x2, if_false, List.length_singleton,
      List.map, Bool.true_eq_false, or_self]
    rw [if_neg (by omega)]
  | case3 q r rest ih =>
    obtain ⟨x1, x2⟩ := hx q (List.mem_cons_self _ _)
    obtain ⟨y1, _⟩ := hx r (List.mem_cons_of_mem _ (List.mem_cons_self _ _))
    have n1 := isxdigit_ne_zero _ x1
    have m1 := isxdigit_ne_zero _ y1
    have hc : colon ≠ 0 := by decide
    have hhead : (colon_hex (r :: rest)).headD 0 = r.1 := by
      cases rest <;> rfl
    rw [colon_hex, hwaddr_aton_loop]
    simp only [n1, x1, x2, hc, hhead, m1, if_false, Bool.true_eq_false, or_self, and_false,
      ne_eq, not_false_eq_true, and_self, or_true, not_true_eq_false, if_true]
    rw [ih _ (len + 1) (by simp) (fun t ht => hx t (List.mem_cons_of_mem _ ht))
      (by simp only [List.length_cons] at h2 ⊢; omega)]
    cases bp with
    | none => simp only [Option.map_none', List.length_cons, aton_result.mk.injEq, and_true]; omega
    | some b =>
      simp only [Option.map_some', List.length_cons, List.map, List.append_assoc,
        List.singleton_append, aton_result.mk.injEq, and_true]
      omega

/-- When the loop of `hwaddr_aton` returns a nonzero count for a text without
NUL characters, the text is empty or a colon-hex text of hexadecimal digits. -/
theorem hwaddr_aton_loop_ret_ne_zero (p : List Byte) (bp : Option (List Byte)) (len : Nat) :
    (∀ c ∈ p, c ≠ 0) → (hwaddr_aton_loop p bp len).ret ≠ 0 →
    (p = [] ∧ len ≠ 0) ∨
      ∃ ps : List (Byte × Byte), ps ≠ [] ∧
        (∀ q ∈ ps, isxdigit q.1 = true ∧ isxdigit q.2 = true) ∧
        2 ≤ len + ps.length ∧ p = colon_hex ps := by
  induction p, bp, len using hwaddr_aton_loop.induct with
  | case1 bp len =>
    intro _ hr
    left
    exact ⟨rfl, by simpa [hwaddr_aton_loop] using hr⟩
  | case2 bp len =>
    intro hs _
    exact absurd rfl (hs 0 (by simp))
  | case3 c0 bp len h0 =>
    intro _ hr
    simp [hwaddr_aton_loop, h0] at hr
  | case4 c1 bp len =>
    intro hs _
    exact absurd rfl (hs 0 (by simp))
  | case5 c0 c1 bp len h0 hx =>
    intro _ hr
    simp [hwaddr_aton_loop, h0, hx] at hr
  | case6 c0 c1 bp h0 hx =>
    intro _ hr
    simp [hwaddr_aton_loop, h0, hx] at hr
  | case7 c0 c1 bp len h0 hx hl =>
    intro _ _
    right
    refine ⟨[(c0, c1)], by simp, ?_, ?_, rfl⟩
    · intro q hq
      rw [List.mem_singleton] at hq
      rw [hq]
      simp only [not_or, Bool.not_eq_false] at hx
      exact hx
    · simp only [List.length_singleton]
      omega
  | case8 c1 c2 rest bp len =>
    intro hs _
    exact absurd rfl (hs 0 (by simp))
  | case9 c0 c1 c2 rest bp len h0 hx =>
    intro _ hr
    simp [hwaddr_aton_loop, h0, hx] at hr
  | case10 c0 c1 c2 rest bp len h0 hx hl =>
    intro _ hr
    simp [hwaddr_aton_loop, h0, hx, hl] at hr
  | case11 c0 c1 c2 rest bp len h0 hx hl hc =>
    intro _ hr
    rw [hwaddr_aton_loop, if_neg h0, if_neg hx, if_neg hl, if_pos hc] at hr
    exact absurd rfl hr
  | case12 c0 c1 c2 rest bp len h0 hx hl hc h2 ih =>
    intro hs hr
    rw [hwaddr_aton_loop, if_neg h0, if_neg hx, if_neg hl, if_neg hc, if_pos h2] at hr
    have hc' : c2 = colon ∧ rest.headD 0 ≠ 0 := by
      rcases not_not.mp hc with h | h
      · exact absurd h h2
      · exact h
    have hrest : rest ≠ [] := by
      intro h
      rw [h] at hc'
      exact hc'.2 rfl
    rcases ih (fun c hcm => hs c (by simp [hcm])) hr with ⟨h, _⟩ | ⟨ps, hne, hxs, hlen, hp⟩
    · exact absurd h hrest
    · right
      simp only [not_or, Bool.not_eq_false] at hx
      refine ⟨(c0, c1) :: ps, by simp, ?_, ?_, ?_⟩
      · intro q hq
        rcases List.mem_cons.mp hq with h | h
        · rw [h]
          exact hx
        · exact hxs q h
      · simp only [List.length_cons]
        omega
      · cases ps with
        | nil => exact absurd rfl hne
        | cons r ps' => rw [colon_hex, ← hp, hc'.1]
  | case13 c0 c1 c2 rest bp len h0 hx hl hc h2 =>
    intro hs _
    exact absurd (not_not.mp h2) (hs c2 (by simp))

theorem hwaddr_aton_loop_ret_null (p : List Byte) (bp : Option (List Byte)) (len : Nat) :
    (hwaddr_aton_loop p none len).ret = (hwaddr_aton_loop p bp len).ret := by
  induction p, bp, len using hwaddr_aton_loop.induct with
  | case1 bp len => simp [hwaddr_aton_loop]
  | case2 bp len => simp [hwaddr_aton_loop]
  | case3 c0 bp len h0 => simp [hwaddr_aton_loop, h0]
  | case4 c1 bp len => simp [hwaddr_aton_loop]
  | case5 c0 c1 bp len h0 hx => simp [hwaddr_aton_loop, h0, hx]
  | case6 c0 c1 bp h0 hx => simp [hwaddr_aton_loop, h0, hx]
  | case7 c0 c1 bp len h0 hx hl => simp [hwaddr_aton_loop, h0, hx, hl]
  | case8 c1 c2 rest bp len => simp [hwaddr_aton_loop]
  | case9 c0 c1 c2 rest bp len h0 hx => simp [hwaddr_aton_loop, h0, hx]
  | case10 c0 c1 c2 rest bp len h0 hx hl => simp [hwaddr_aton_loop, h0, hx, hl]
  | case11 c0 c1 c2 rest bp len h0 hx hl hc =>
    rw [hwaddr_aton_loop, if_neg h0, if_neg hx, if_neg hl, if_pos hc,
      hwaddr_aton_loop, if_neg h0, if_neg hx, if_neg hl, if_pos hc]
  | case12 c0 c1 c2 rest bp len h0 hx hl hc h2 ih =>
    rw [hwaddr_aton_loop, if_neg h0, if_neg hx, if_neg hl, if_neg hc, if_pos h2,
      hwaddr_aton_loop, if_neg h0, if_neg hx, if_neg hl, if_neg hc, if_pos h2]
    exact ih
  | case13 c0 c1 c2 rest bp len h0 hx hl hc h2 =>
    rw [hwaddr_aton_loop, if_neg h0, if_neg hx, if_neg hl, if_neg hc, if_neg h2,
      hwaddr_aton_loop, if_neg h0, if_neg hx, if_neg hl, if_neg hc, if_neg h2]

theorem inet_ntocidr_loop_some (j : Nat) (hj : j ≤ 32) (mask : Nat) (cidr : Int)
    (hm : mask < 4294967296) (hd : 2 ^ (32 - j) ∣ mask) :
    ∃ c, inet_ntocidr_loop (j + 1) mask cidr = some c := by
  induction j generalizing mask cidr with
  | zero =>
    have h0 : mask = 0 := by
      by_contra hne
      have := Nat.le_of_dvd (Nat.pos_of_ne_zero hne) hd
      simp at this
      omega
    exact ⟨cidr, by simp [inet_ntocidr_loop, h0]⟩
  | succ j ih =>
    rw [inet_ntocidr_loop]
    by_cases h0 : mask = 0
    · exact ⟨cidr, by simp [h0]⟩
    · rw [if_pos h0]
      apply ih (by omega) _ _ (Nat.mod_lt _ (by decide))
      have e : 32 - j = (32 - (j + 1)) + 1 := by omega
      have hd2 : 2 ^ (32 - j) ∣ mask <<< 1 := by
        rw [Nat.shiftLeft_eq, e, pow_succ, Nat.pow_one]
        exact Nat.mul_dvd_mul_right hd 2
      have hd3 : 2 ^ (32 - j) ∣ 4294967296 := by
        have : (4294967296 : Nat) = 2 ^ 32 := by norm_num
        rw [this]
        exact Nat.pow_dvd_pow 2 (by omega)
      exact (Nat.dvd_mod_iff hd3).mpr hd2

/-- The loop of `inet_ntocidr` ends for every address within the tests
provided: `inet_ntocidr` always returns a value. -/
theorem inet_ntocidr_total (T : Target) (a : in_addr) : ∃ c, inet_ntocidr T a = some c := by
  have h0 := a.s0.isLt
  have h1 := a.s1.isLt
  have h2 := a.s2.isLt
  have h3 := a.s3.isLt
  rw [inet_ntocidr_eq]
  exact inet_ntocidr_loop_some 32 (Nat.le_refl _) _ _ (by unfold be32; omega) (by simp)

/-- For a buffer `valid_udp_packet` accepts, the length `get_udp_data` returns
is at most `data_len - sizeof(ip) - sizeof(udp)`; it can be negative. -/
theorem get_udp_data_le_of_valid (T : Target) (uninit : Nat → Byte) (data : List Byte)
    (data_len : Nat) (from_addr : Option in_addr) (hbuf : data_len ≤ data.length)
    (hv : (valid_udp_packet T uninit data data_len from_addr).ret = 0) :
    (get_udp_data T data).ret ≤ (data_len : Int) - 28 := by
  rw [valid_udp_packet_ret_zero_iff] at hv
  obtain ⟨a1, a2, _, a4, _⟩ := hv
  have e20 : sizeof_ip = 20 := rfl
  have hsz : sizeof_udp_dhcp_packet T = 28 + T.sizeof_dhcp_message := rfl
  rw [ntohs_load16, packet_copy_load8 T uninit data data_len _ hbuf a2
    (by unfold off_ip_len; omega), packet_copy_load8 T uninit data data_len _ hbuf a2
    (by unfold off_ip_len; omega)] at a4
  unfold get_udp_data
  simp only
  rw [ntohs_load16, load8_take _ _ _ (by unfold off_ip_len; omega),
    load8_take _ _ _ (by unfold off_ip_len; omega)]
  simp only [sizeof_ip, sizeof_udphdr]
  omega

/-- A mask whose low 24 bits are zero only looks at the first octet. -/
theorem and_high_octet (x m : Nat) (hm : m % 16777216 = 0) :
    x &&& m = ((x / 16777216) &&& (m / 16777216)) * 16777216 := by
  have e : (16777216 : Nat) = 2 ^ 24 := by norm_num
  rw [e] at hm ⊢
  apply Nat.eq_of_testBit_eq
  intro i
  rw [Nat.testBit_and, Nat.mul_comm, Nat.testBit_mul_pow_two, Nat.testBit_and,
    ← Nat.shiftRight_eq_div_pow, ← Nat.shiftRight_eq_div_pow, Nat.testBit_shiftRight,
    Nat.testBit_shiftRight]
  by_cases hi : 24 ≤ i
  · have : 24 + (i - 24) = i := by omega
    simp [hi, this]
  · have hlow : m.testBit i = false := by
      have h := Nat.testBit_mod_two_pow m 24 i
      rw [hm] at h
      simp only [Nat.zero_testBit] at h
      have hlt : i < 24 := by omega
      simpa [hlt] using h.symm
    simp [hi, hlow]

theorem be32_div (a : in_addr) : be32 a / 16777216 = a.s0.val := by
  have h1 := a.s1.isLt
  have h2 := a.s2.isLt
  have h3 := a.s3.isLt
  unfold be32
  omega

set_option maxRecDepth 100000 in
theorem in_class_a (a : in_addr) : IN_CLASSA (be32 a) = decide (a.s0.val / 128 = 0) := by
  unfold IN_CLASSA
  rw [and_high_octet _ _ (by decide), be32_div]
  generalize a.s0 = s
  revert s
  decide

set_option maxRecDepth 100000 in
theorem in_class_b (a : in_addr) : IN_CLASSB (be32 a) = decide (a.s0.val / 64 = 2) := by
  unfold IN_CLASSB
  rw [and_high_octet _ _ (by decide), be32_div]
  generalize a.s0 = s
  revert s
  decide

set_option maxRecDepth 100000 in
theorem in_class_c (a : in_addr) : IN_CLASSC (be32 a) = decide (a.s0.val / 32 = 6) := by
  unfold IN_CLASSC
  rw [and_high_octet _ _ (by decide), be32_div]
  generalize a.s0 = s
  revert s
  decide

theorem s_addr_eq_zero (T : Target) (a : in_addr) : a.s_addr T = 0 ↔ a = ⟨0, 0, 0, 0⟩ := by
  constructor
  · intro h
    have h0 : a.s0.val = 0 := by unfold in_addr.s_addr at h; split at h <;> omega
    have h1 : a.s1.val = 0 := by unfold in_addr.s_addr at h; split at h <;> omega
    have h2 : a.s2.val = 0 := by unfold in_addr.s_addr at h; split at h <;> omega
    have h3 : a.s3.val = 0 := by unfold in_addr.s_addr at h; split at h <;> omega
    cases a
    simp only [in_addr.mk.injEq]
    exact ⟨Fin.ext h0, Fin.ext h1, Fin.ext h2, Fin.ext h3⟩
  · intro h
    rw [h]
    unfold in_addr.s_addr
    split <;> rfl

theorem of_s_addr_class_a (T : Target) :
    in_addr.of_s_addr T (ntohl T IN_CLASSA_NET) = ⟨255, 0, 0, 0⟩ := by
  unfold in_addr.of_s_addr ntohl htonl
  split <;> decide

theorem of_s_addr_class_b (T : Target) :
    in_addr.of_s_addr T (ntohl T IN_CLASSB_NET) = ⟨255, 255, 0, 0⟩ := by
  unfold in_addr.of_s_addr ntohl htonl
  split <;> decide

theorem of_s_addr_class_c (T : Target) :
    in_addr.of_s_addr T (ntohl T IN_CLASSC_NET) = ⟨255, 255, 255, 0⟩ := by
  unfold in_addr.of_s_addr ntohl htonl
  split <;> decide

theorem of_s_addr_zero (T : Target) : in_addr.of_s_addr T 0 = ⟨0, 0, 0, 0⟩ := by
  unfold in_addr.of_s_addr
  split <;> rfl

/-- What `get_netmask` returns, as an address object, by the first octet of the
address given. -/
theorem get_netmask_eq (T : Target) (a : in_addr) :
    in_addr.of_s_addr T (get_netmask T (a.s_addr T)) =
      if a = ⟨0, 0, 0, 0⟩ then ⟨0, 0, 0, 0⟩
      else if a.s0.val / 128 = 0 then ⟨255, 0, 0, 0⟩
      else if a.s0.val / 64 = 2 then ⟨255, 255, 0, 0⟩
      else if a.s0.val / 32 = 6 then ⟨255, 255, 255, 0⟩
      else ⟨0, 0, 0, 0⟩ := by
  unfold get_netmask
  simp only [htonl_s_addr, in_class_a, in_class_b, in_class_c, s_addr_eq_zero,
    decide_eq_true_eq]
  split
  · exact of_s_addr_zero T
  · split
    · exact of_s_addr_class_a T
    · split
      · exact of_s_addr_class_b T
      · split
        · exact of_s_addr_class_c T
        · exact of_s_addr_zero T

theorem pseudo_octet_ge (p : List Byte) (i : Nat) (b : Byte) (h : 28 ≤ i) :
    pseudo_octet p i b = b := by
  unfold pseudo_octet
  have h1 : pseudo_zeroed_fields.any (in_field i) = false := by
    simp only [pseudo_zeroed_fields, in_field, off_uh_sum, off_ip_vhl, off_ip_tos, off_ip_id,
      off_ip_off, off_ip_ttl, off_ip_sum, List.any_cons, List.any_nil, Bool.or_false,
      Bool.or_eq_false_iff, Bool.and_eq_false_iff, decide_eq_false_iff_not]
    omega
  have h2 : in_field i (off_ip_len, 2) = false := by
    simp only [in_field, off_ip_len, Bool.and_eq_false_iff, decide_eq_false_iff_not]
    omega
  rw [h1, h2]
  simp

theorem pseudo_copy_from_ge (p : List Byte) (rest : List Byte) (i : Nat) (h : 28 ≤ i) :
    pseudo_copy_from p i rest = rest := by
  induction rest generalizing i with
  | nil => rfl
  | cons b rest ih => rw [pseudo_copy_from, pseudo_octet_ge p i b h, ih (i + 1) (by omega)]

theorem pseudo_octet_lt (p : List Byte) (i : Nat) (b : Byte) (h : i < 28) :
    pseudo_octet p i b =
      if i = 2 then load8 p 24 else if i = 3 then load8 p 25
      else if i = 9 ∨ (12 ≤ i ∧ i < 26) then b else 0 := by
  unfold pseudo_octet
  interval_cases i <;> rfl

/-- The statements of `valid_udp_packet` that prepare the copy produce the copy
described octet by octet. -/
theorem udp_pseudo_eq_pseudo_copy (T : Target) (p : List Byte) (h : 28 ≤ p.length) :
    udp_pseudo T p = pseudo_copy p := by
  iterate 28 (
    rcases p with _ | ⟨a, p⟩
    · simp only [List.length_cons, List.length_nil] at h
      omega)
  unfold udp_pseudo pseudo_copy
  simp only [off_uh_sum, off_ip_vhl, off_ip_tos, off_ip_len, off_uh_ulen, off_ip_id,
    off_ip_off, off_ip_ttl, off_ip_sum,
    store_cons_succ, store_zero_cons, store_zero_nil,
    bytes16_zero, bytes16_load16, load8_cons_zero, load8_cons_succ, vhl_clear, byte_zero,
    pseudo_copy_from, Nat.zero_add, Nat.reduceAdd]
  rw [pseudo_copy_from_ge _ _ 28 (Nat.le_refl _)]
  simp only [pseudo_octet_lt _ 0 _ (by decide), pseudo_octet_lt _ 1 _ (by decide),
    pseudo_octet_lt _ 2 _ (by decide), pseudo_octet_lt _ 3 _ (by decide),
    pseudo_octet_lt _ 4 _ (by decide), pseudo_octet_lt _ 5 _ (by decide),
    pseudo_octet_lt _ 6 _ (by decide), pseudo_octet_lt _ 7 _ (by decide),
    pseudo_octet_lt _ 8 _ (by decide), pseudo_octet_lt _ 9 _ (by decide),
    pseudo_octet_lt _ 10 _ (by decide), pseudo_octet_lt _ 11 _ (by decide),
    pseudo_octet_lt _ 12 _ (by decide), pseudo_octet_lt _ 13 _ (by decide),
    pseudo_octet_lt _ 14 _ (by decide), pseudo_octet_lt _ 15 _ (by decide),
    pseudo_octet_lt _ 16 _ (by decide), pseudo_octet_lt _ 17 _ (by decide),
    pseudo_octet_lt _ 18 _ (by decide), pseudo_octet_lt _ 19 _ (by decide),
    pseudo_octet_lt _ 20 _ (by decide), pseudo_octet_lt _ 21 _ (by decide),
    pseudo_octet_lt _ 22 _ (by decide), pseudo_octet_lt _ 23 _ (by decide),
    pseudo_octet_lt _ 24 _ (by decide), pseudo_octet_lt _ 25 _ (by decide),
    pseudo_octet_lt _ 26 _ (by decide), pseudo_octet_lt _ 27 _ (by decide),
    load8_cons_zero, load8_cons_succ]
  simp

theorem packet_copy_length (T : Target) (uninit : Nat → Byte) (data : List Byte)
    (data_len : Nat) :
    (packet_copy T uninit data data_len).length = sizeof_udp_dhcp_packet T := by
  unfold packet_copy local_object
  rw [store_zero_eq]
  simp only [List.length_append, List.length_take, List.length_drop, List.length_map,
    List.length_range]
  omega

/-! ## Verified properties -/

/-- C3. For a buffer of `len <= 65535` octets the two octets of the value
returned by `checksum`, as they lie in memory, are the high and the low octet of
the complement of the one's-complement sum of the big-endian words of the
buffer (an odd last octet padded with a zero low octet): the two folding steps
absorb every carry. -/
theorem checksum_is_internet_checksum (T : Target) (data : List Byte) (len : Nat)
    (hlen : len ≤ 65535) :
    bytes16 T (checksum T data len) =
      [byte (internet_checksum (data.take len) / 256),
       byte (internet_checksum (data.take len))] := by
  rw [checksum_eq T data len hlen, bytes16_htons]
  unfold ck internet_checksum
  rw [oc_sum_be_words _ (wsum_take_lt data len hlen)]

/-- C4. For a buffer of `len <= 65535` octets with a 16-bit field at an even
offset `off` inside it that holds zero, storing `checksum` of the buffer in that
field and taking `checksum` of the buffer again gives zero. -/
theorem checksum_of_checksummed_is_zero (T : Target) (data : List Byte) (len off : Nat)
    (hlen : len ≤ 65535) (hbuf : len ≤ data.length) (hoff : off % 2 = 0) (hin : off + 2 ≤ len)
    (h0 : load8 data off = 0) (h1 : load8 data (off + 1) = 0) :
    checksum T (store data off (bytes16 T (checksum T data len))) len = 0 :=
  checksum_store_self T data len off hlen hbuf hoff hin h0 h1

theorem checksum_of_checksummed_is_zero_witness :
    checksum ⟨true, 548, 68, 67⟩
      (store [0x45, 0, 0, 0x73, 0, 0, 0x40, 0, 0x40, 0x11, 0, 0, 0xc0, 0xa8, 0, 1, 0xc0, 0xa8, 0, 0xc7] 10
        (bytes16 ⟨true, 548, 68, 67⟩ (checksum ⟨true, 548, 68, 67⟩
          [0x45, 0, 0, 0x73, 0, 0, 0x40, 0, 0x40, 0x11, 0, 0, 0xc0, 0xa8, 0, 1, 0xc0, 0xa8, 0, 0xc7] 20)))
      20 = 0 :=
  checksum_of_checksummed_is_zero ⟨true, 548, 68, 67⟩
    [0x45, 0, 0, 0x73, 0, 0, 0x40, 0, 0x40, 0x11, 0, 0, 0xc0, 0xa8, 0, 1, 0xc0, 0xa8, 0, 0xc7] 20 10
    (by decide) (by decide) (by decide) (by decide) (by decide) (by decide)

theorem checksum_is_internet_checksum_witness :
    bytes16 ⟨true, 548, 68, 67⟩ (checksum ⟨true, 548, 68, 67⟩ [0x45, 0, 0, 0x73, 1] 5) =
      [byte (internet_checksum (List.take 5 [0x45, 0, 0, 0x73, 1]) / 256),
       byte (internet_checksum (List.take 5 [0x45, 0, 0, 0x73, 1]))] :=
  checksum_is_internet_checksum ⟨true, 548, 68, 67⟩ [0x45, 0, 0, 0x73, 1] 5 (by decide)

/-- C1. A frame built by `make_udp_packet` for a payload that fits into
`struct dhcp_message`, handed to `valid_udp_packet` with the length
`make_udp_packet` returned, is accepted (the value returned is `0`), and the
address written through `from` is the source given to `make_udp_packet`.
`hD` says that `struct udp_dhcp_packet` fits the `uint16_t` length argument of
`checksum`. -/
theorem make_udp_packet_valid (T : Target) (uninit : Nat → Byte) (data : List Byte)
    (source dest : in_addr) (from_addr : Option in_addr)
    (hL : data.length ≤ T.sizeof_dhcp_message) (hD : sizeof_udp_dhcp_packet T ≤ 65535) :
    (valid_udp_packet T uninit (make_udp_packet T data source dest).1
        (make_udp_packet T data source dest).2.toNat from_addr).ret = 0 ∧
    (valid_udp_packet T uninit (make_udp_packet T data source dest).1
        (make_udp_packet T data source dest).2.toNat from_addr).from_addr =
      from_addr.map (fun _ => source) := by
  have hs : sizeof_udp_dhcp_packet T = 28 + T.sizeof_dhcp_message := rfl
  have hn : sizeof_ip + sizeof_udphdr + data.length = 28 + data.length := rfl
  have h20 : sizeof_ip = 20 := rfl
  rw [make_udp_packet_eq]
  simp only [Int.toNat_ofNat]
  constructor
  · rw [valid_udp_packet_ret_zero_iff, packet_copy_frame T uninit data source dest hL,
      header_ip_len T _ _ _ _ _ _ _ _ _ _ _ _ _ _ _ (by omega), udp_pseudo_header,
      frame_udp_checksum T data source dest _ hL hD]
    refine ⟨by omega, by omega, frame_ip_checksum T data source dest _, Nat.le_refl _, Or.inr ?_⟩
    exact (load16_ckb T _ _ _ _ rfl rfl).symm
  · rw [valid_udp_packet_from, packet_copy_frame T uninit data source dest hL,
      if_neg (by omega)]
    rfl

theorem make_udp_packet_valid_witness :
    (valid_udp_packet ⟨true, 548, 68, 67⟩ (fun _ => 0xAA)
        (make_udp_packet ⟨true, 548, 68, 67⟩ [1, 2, 3] ⟨10, 0, 0, 1⟩ ⟨0, 0, 0, 0⟩).1
        (make_udp_packet ⟨true, 548, 68, 67⟩ [1, 2, 3] ⟨10, 0, 0, 1⟩ ⟨0, 0, 0, 0⟩).2.toNat
        (some ⟨9, 9, 9, 9⟩)).ret = 0 ∧
    (valid_udp_packet ⟨true, 548, 68, 67⟩ (fun _ => 0xAA)
        (make_udp_packet ⟨true, 548, 68, 67⟩ [1, 2, 3] ⟨10, 0, 0, 1⟩ ⟨0, 0, 0, 0⟩).1
        (make_udp_packet ⟨true, 548, 68, 67⟩ [1, 2, 3] ⟨10, 0, 0, 1⟩ ⟨0, 0, 0, 0⟩).2.toNat
        (some ⟨9, 9, 9, 9⟩)).from_addr = (some ⟨9, 9, 9, 9⟩ : Option in_addr).map
          (fun _ => (⟨10, 0, 0, 1⟩ : in_addr)) :=
  make_udp_packet_valid ⟨true, 548, 68, 67⟩ (fun _ => 0xAA) [1, 2, 3] ⟨10, 0, 0, 1⟩ ⟨0, 0, 0, 0⟩
    (some ⟨9, 9, 9, 9⟩) (by decide) (by decide)

/-- C2. For a payload that fits into `struct dhcp_message`, `get_udp_data` on
the frame built by `make_udp_packet` returns the length of the payload and a
pointer `sizeof(ip) + sizeof(udp) = 28` octets into the frame, and the octets
found there are the payload.  `hD` says that `struct udp_dhcp_packet` fits the
16-bit length fields. -/
theorem get_udp_data_make_udp_packet (T : Target) (data : List Byte) (source dest : in_addr)
    (hL : data.length ≤ T.sizeof_dhcp_message) (hD : sizeof_udp_dhcp_packet T ≤ 65535) :
    (get_udp_data T (make_udp_packet T data source dest).1).ret = (data.length : Int) ∧
    (get_udp_data T (make_udp_packet T data source dest).1).data_off = 28 ∧
    ((make_udp_packet T data source dest).1.drop
        (get_udp_data T (make_udp_packet T data source dest).1).data_off).take data.length
      = data := by
  have hs : sizeof_udp_dhcp_packet T = 28 + T.sizeof_dhcp_message := rfl
  have hn : sizeof_ip + sizeof_udphdr + data.length = 28 + data.length := rfl
  rw [make_udp_packet_eq]
  refine ⟨?_, rfl, ?_⟩
  · unfold get_udp_data
    simp only
    rw [List.take_of_length_le (by rw [frame_of_length T data source dest hL]), frame_of,
      header_ip_len T _ _ _ _ _ _ _ _ _ _ _ _ _ _ _ (by omega), hn]
    simp only [sizeof_ip, sizeof_udphdr]
    omega
  · show ((frame_of T data source dest).drop 28).take data.length = data
    rw [frame_of, header_drop, dhcp_area_take]

theorem get_udp_data_make_udp_packet_witness :
    (get_udp_data ⟨true, 548, 68, 67⟩
      (make_udp_packet ⟨true, 548, 68, 67⟩ [1, 2, 3] ⟨10, 0, 0, 1⟩ ⟨0, 0, 0, 0⟩).1).ret =
        (([1, 2, 3] : List Byte).length : Int) ∧
    (get_udp_data ⟨true, 548, 68, 67⟩
      (make_udp_packet ⟨true, 548, 68, 67⟩ [1, 2, 3] ⟨10, 0, 0, 1⟩ ⟨0, 0, 0, 0⟩).1).data_off = 28 ∧
    ((make_udp_packet ⟨true, 548, 68, 67⟩ [1, 2, 3] ⟨10, 0, 0, 1⟩ ⟨0, 0, 0, 0⟩).1.drop
        (get_udp_data ⟨true, 548, 68, 67⟩
          (make_udp_packet ⟨true, 548, 68, 67⟩ [1, 2, 3] ⟨10, 0, 0, 1⟩ ⟨0, 0, 0, 0⟩).1).data_off).take
        ([1, 2, 3] : List Byte).length = [1, 2, 3] :=
  get_udp_data_make_udp_packet ⟨true, 548, 68, 67⟩ [1, 2, 3] ⟨10, 0, 0, 1⟩ ⟨0, 0, 0, 0⟩
    (by decide) (by decide)

/-- C9. In the frame built by `make_udp_packet` the IP destination field holds
the limited broadcast address 255.255.255.255 when the destination given is the
unspecified address, and the destination given otherwise; the IP source field
holds the source given. -/
theorem make_udp_packet_addresses (T : Target) (data : List Byte) (source dest : in_addr) :
    load_addr (make_udp_packet T data source dest).1 off_ip_dst =
      (if dest = INADDR_ANY then (⟨255, 255, 255, 255⟩ : in_addr) else dest) ∧
    load_addr (make_udp_packet T data source dest).1 off_ip_src = source := by
  rw [make_udp_packet_eq]
  exact ⟨rfl, rfl⟩

/-- C10. For a payload of `L` octets that fits into `struct dhcp_message`,
`make_udp_packet` returns `28 + L` and an object of
`sizeof(struct udp_dhcp_packet)` octets whose header reads: first octet `0x45`,
TOS `IPTOS_LOWDELAY`, total length `28 + L`, identification `0`, fragment field
`IP_DF`, TTL `IPDEFTTL`, protocol 17, UDP source port `DHCP_CLIENT_PORT`,
destination port `DHCP_SERVER_PORT`, UDP length `8 + L`, every 16-bit field in
network byte order, and every octet behind the payload is zero.  `hD`, `hc`,
`hs` say that the struct and the two port macros fit in 16 bits. -/
theorem make_udp_packet_header (T : Target) (data : List Byte) (source dest : in_addr)
    (hL : data.length ≤ T.sizeof_dhcp_message) (hD : sizeof_udp_dhcp_packet T ≤ 65535)
    (hc : T.DHCP_CLIENT_PORT ≤ 65535) (hs : T.DHCP_SERVER_PORT ≤ 65535) :
    (make_udp_packet T data source dest).2 = ((28 + data.length : Nat) : Int) ∧
    (make_udp_packet T data source dest).1.length = sizeof_udp_dhcp_packet T ∧
    load8 (make_udp_packet T data source dest).1 0 = 0x45 ∧
    load8 (make_udp_packet T data source dest).1 1 = byte IPTOS_LOWDELAY ∧
    load16_be (make_udp_packet T data source dest).1 2 = 28 + data.length ∧
    load16_be (make_udp_packet T data source dest).1 4 = 0 ∧
    load16_be (make_udp_packet T data source dest).1 6 = IP_DF ∧
    load8 (make_udp_packet T data source dest).1 8 = byte IPDEFTTL ∧
    load8 (make_udp_packet T data source dest).1 9 = 17 ∧
    load16_be (make_udp_packet T data source dest).1 20 = T.DHCP_CLIENT_PORT ∧
    load16_be (make_udp_packet T data source dest).1 22 = T.DHCP_SERVER_PORT ∧
    load16_be (make_udp_packet T data source dest).1 24 = 8 + data.length ∧
    ∀ i, 28 + data.length ≤ i → i < sizeof_udp_dhcp_packet T →
      load8 (make_udp_packet T data source dest).1 i = 0 := by
  have hsz : sizeof_udp_dhcp_packet T = 28 + T.sizeof_dhcp_message := rfl
  rw [make_udp_packet_eq]
  refine ⟨rfl, frame_of_length T data source dest hL, rfl, rfl, ?_, ?_, ?_, rfl, rfl, ?_, ?_, ?_,
    ?_⟩
  · exact be16_val _ (by unfold sizeof_ip sizeof_udphdr; omega)
  · exact be16_val 0 (by decide)
  · exact be16_val IP_DF (by decide)
  · exact be16_val _ hc
  · exact be16_val _ hs
  · exact be16_val _ (by unfold sizeof_udphdr; omega)
  · intro i h1 _
    obtain ⟨k, rfl⟩ := Nat.exists_eq_add_of_le (show 28 ≤ i by omega)
    show load8 (frame_of T data source dest) (28 + k) = 0
    rw [frame_of, header_load8_dhcp]
    exact dhcp_area_load8_zero T data k (by omega)

theorem make_udp_packet_header_witness :
    (make_udp_packet ⟨true, 548, 68, 67⟩ [1, 2, 3] ⟨10, 0, 0, 1⟩ ⟨0, 0, 0, 0⟩).2 =
      ((28 + ([1, 2, 3] : List Byte).length : Nat) : Int) ∧
    load16_be (make_udp_packet ⟨true, 548, 68, 67⟩ [1, 2, 3] ⟨10, 0, 0, 1⟩ ⟨0, 0, 0, 0⟩).1 20 = 68 :=
  have h := make_udp_packet_header ⟨true, 548, 68, 67⟩ [1, 2, 3] ⟨10, 0, 0, 1⟩ ⟨0, 0, 0, 0⟩
    (by decide) (by decide) (by decide) (by decide)
  ⟨h.1, h.2.2.2.2.2.2.2.2.2.1⟩

/-- C5. In a frame built by `make_udp_packet`, replacing one octet of the
20-octet IP header by a different value makes the IP header checksum that
`valid_udp_packet` recomputes nonzero, and `valid_udp_packet`, called with the
length `make_udp_packet` returned, returns `-1`.  This holds for every offset
below 20, so in particular for every octet outside the checksum field. -/
theorem corrupt_ip_header_rejected (T : Target) (uninit : Nat → Byte) (data : List Byte)
    (source dest : in_addr) (from_addr : Option in_addr) (i : Nat) (v : Byte)
    (hL : data.length ≤ T.sizeof_dhcp_message) (hi : i < sizeof_ip)
    (hv : v ≠ load8 (make_udp_packet T data source dest).1 i) :
    checksum T (packet_copy T uninit ((make_udp_packet T data source dest).1.set i v)
        (make_udp_packet T data source dest).2.toNat) sizeof_ip ≠ 0 ∧
    (valid_udp_packet T uninit ((make_udp_packet T data source dest).1.set i v)
        (make_udp_packet T data source dest).2.toNat from_addr).ret = -1 := by
  have hs : sizeof_udp_dhcp_packet T = 28 + T.sizeof_dhcp_message := rfl
  have hn : sizeof_ip + sizeof_udphdr + data.length = 28 + data.length := rfl
  have h20 : sizeof_ip = 20 := rfl
  rw [make_udp_packet_eq] at hv ⊢
  simp only [Int.toNat_ofNat] at hv ⊢
  have hlen := frame_of_length T data source dest hL
  have hck : checksum T (packet_copy T uninit ((frame_of T data source dest).set i v)
      (sizeof_ip + sizeof_udphdr + data.length)) sizeof_ip ≠ 0 := by
    have hgood : checksum T (frame_of T data source dest) sizeof_ip = 0 :=
      frame_ip_checksum T data source dest _
    rw [checksum_eq_zero_iff T _ sizeof_ip (by decide)] at hgood
    rw [Ne, checksum_eq_zero_iff T _ sizeof_ip (by decide)]
    rw [packet_copy_take T uninit _ _ _ (by rw [List.length_set]; omega) (by omega) (by omega),
      List.set_take]
    have hHl : ((frame_of T data source dest).take sizeof_ip).length = sizeof_ip := by
      rw [List.length_take]
      omega
    have hset := wsum_set ((frame_of T data source dest).take sizeof_ip) i v (by omega)
    rw [load8_take _ _ _ hi, wt_true] at hset
    have hb1 := wsum_aux_le true ((frame_of T data source dest).take sizeof_ip)
    have hb2 := wsum_aux_le true (((frame_of T data source dest).take sizeof_ip).set i v)
    rw [List.length_set] at hb2
    rw [hHl] at hb1 hb2
    have hne : v.val ≠ (load8 (frame_of T data source dest) i).val := fun h => hv (Fin.ext h)
    have hv1 := v.isLt
    have hv2 := (load8 (frame_of T data source dest) i).isLt
    change wsum ((frame_of T data source dest).take sizeof_ip) ≤ _ at hb1
    change wsum (((frame_of T data source dest).take sizeof_ip).set i v) ≤ _ at hb2
    obtain ⟨a1, a2, a3⟩ := fold16_spec (wsum ((frame_of T data source dest).take sizeof_ip))
      (by omega)
    obtain ⟨b1, b2, b3⟩ := fold16_spec
      (wsum (((frame_of T data source dest).take sizeof_ip).set i v)) (by omega)
    generalize wsum ((frame_of T data source dest).take sizeof_ip) = s at *
    generalize wsum (((frame_of T data source dest).take sizeof_ip).set i v) = s2 at *
    generalize (load8 (frame_of T data source dest) i).val = old at *
    generalize v.val = new at *
    rw [hgood] at a2
    intro hbad
    rw [hbad] at b2
    split at hset <;> omega
  refine ⟨hck, ?_⟩
  rcases valid_udp_packet_ret_cases T uninit ((frame_of T data source dest).set i v)
    (sizeof_ip + sizeof_udphdr + data.length) from_addr with h0 | h0
  · rw [valid_udp_packet_ret_zero_iff] at h0
    exact absurd h0.2.2.1 hck
  · exact h0

theorem corrupt_ip_header_rejected_witness :
    checksum ⟨true, 548, 68, 67⟩ (packet_copy ⟨true, 548, 68, 67⟩ (fun _ => 0xAA)
        ((make_udp_packet ⟨true, 548, 68, 67⟩ [1, 2, 3] ⟨10, 0, 0, 1⟩ ⟨0, 0, 0, 0⟩).1.set 8 65)
        (make_udp_packet ⟨true, 548, 68, 67⟩ [1, 2, 3] ⟨10, 0, 0, 1⟩ ⟨0, 0, 0, 0⟩).2.toNat)
        sizeof_ip ≠ 0 ∧
    (valid_udp_packet ⟨true, 548, 68, 67⟩ (fun _ => 0xAA)
        ((make_udp_packet ⟨true, 548, 68, 67⟩ [1, 2, 3] ⟨10, 0, 0, 1⟩ ⟨0, 0, 0, 0⟩).1.set 8 65)
        (make_udp_packet ⟨true, 548, 68, 67⟩ [1, 2, 3] ⟨10, 0, 0, 1⟩ ⟨0, 0, 0, 0⟩).2.toNat
        none).ret = -1 :=
  corrupt_ip_header_rejected ⟨true, 548, 68, 67⟩ (fun _ => 0xAA) [1, 2, 3] ⟨10, 0, 0, 1⟩
    ⟨0, 0, 0, 0⟩ none 8 65 (by decide) (by decide)
    (by rw [make_udp_packet_eq]; decide)

/-- C6. For a frame that passes the length checks and the IP header checksum
check of `valid_udp_packet`: when the UDP checksum field of the copy is zero the
frame is accepted (`0` is returned) whatever the UDP header and the payload
hold; when it is nonzero and differs from `checksum` over the first `ip_len`
octets (the IP total length read big-endian) of `pseudo_copy`, the copy in
which the UDP checksum and the IP version/header length, TOS, identification,
fragment, TTL and header checksum fields are zeroed and the IP total length is
replaced by the UDP length, the frame is rejected (`-1` is returned).  For a
frame of at least 28 octets the UDP checksum field of the copy is that of the
frame. -/
theorem valid_udp_packet_udp_checksum (T : Target) (uninit : Nat → Byte) (data : List Byte)
    (data_len : Nat) (from_addr : Option in_addr)
    (h1 : sizeof_ip ≤ data_len) (h2 : data_len ≤ sizeof_udp_dhcp_packet T)
    (h3 : checksum T (packet_copy T uninit data data_len) sizeof_ip = 0)
    (h4 : load16_be (packet_copy T uninit data data_len) off_ip_len ≤ data_len) :
    (load16 T (packet_copy T uninit data data_len) off_uh_sum = 0 →
      (valid_udp_packet T uninit data data_len from_addr).ret = 0) ∧
    (load16 T (packet_copy T uninit data data_len) off_uh_sum ≠ 0 →
      checksum T (pseudo_copy (packet_copy T uninit data data_len))
          (load16_be (packet_copy T uninit data data_len) off_ip_len) ≠
        load16 T (packet_copy T uninit data data_len) off_uh_sum →
      (valid_udp_packet T uninit data data_len from_addr).ret = -1) ∧
    (sizeof_ip + sizeof_udphdr ≤ data_len → data_len ≤ data.length →
      load16 T (packet_copy T uninit data data_len) off_uh_sum = load16 T data off_uh_sum) := by
  have hbe : ntohs T (load16 T (packet_copy T uninit data data_len) off_ip_len) =
      load16_be (packet_copy T uninit data data_len) off_ip_len := ntohs_load16 T _ _
  have hps : udp_pseudo T (packet_copy T uninit data data_len) =
      pseudo_copy (packet_copy T uninit data data_len) :=
    udp_pseudo_eq_pseudo_copy T _ (by
      rw [packet_copy_length]
      unfold sizeof_udp_dhcp_packet sizeof_ip sizeof_udphdr
      omega)
  refine ⟨?_, ?_, ?_⟩
  · intro hz
    rw [valid_udp_packet_ret_zero_iff, hbe]
    exact ⟨h1, h2, h3, h4, Or.inl hz⟩
  · intro hnz hne
    rcases valid_udp_packet_ret_cases T uninit data data_len from_addr with h0 | h0
    · rw [valid_udp_packet_ret_zero_iff, hbe, hps] at h0
      rcases h0.2.2.2.2 with h | h
      · exact absurd h hnz
      · exact absurd h hne
    · exact h0
  · intro h28 hbuf
    have e : sizeof_ip + sizeof_udphdr = 28 := rfl
    unfold load16
    rw [packet_copy_load8 T uninit data data_len _ hbuf h2 (by unfold off_uh_sum; omega),
      packet_copy_load8 T uninit data data_len _ hbuf h2 (by unfold off_uh_sum; omega)]

set_option maxRecDepth 100000 in
theorem valid_udp_packet_udp_checksum_witness :
    (valid_udp_packet ⟨true, 548, 68, 67⟩ (fun _ => 0xAA)
        [69, 16, 0, 33, 0, 0, 64, 0, 64, 17, 48, 188, 10, 0, 0, 1, 255, 255, 255, 255,
          0, 68, 0, 67, 0, 13, 0, 0, 1, 2, 3, 4, 5] 33 none).ret = 0 ∧
    (valid_udp_packet ⟨true, 548, 68, 67⟩ (fun _ => 0xAA)
        [69, 16, 0, 33, 0, 0, 64, 0, 64, 17, 48, 188, 10, 0, 0, 1, 255, 255, 255, 255,
          0, 68, 0, 67, 0, 13, 1, 1, 1, 2, 3, 4, 5] 33 none).ret = -1 :=
  ⟨(valid_udp_packet_udp_checksum ⟨true, 548, 68, 67⟩ (fun _ => 0xAA)
      [69, 16, 0, 33, 0, 0, 64, 0, 64, 17, 48, 188, 10, 0, 0, 1, 255, 255, 255, 255,
        0, 68, 0, 67, 0, 13, 0, 0, 1, 2, 3, 4, 5] 33 none
      (by decide) (by decide) (by decide) (by decide)).1 (by decide),
   (valid_udp_packet_udp_checksum ⟨true, 548, 68, 67⟩ (fun _ => 0xAA)
      [69, 16, 0, 33, 0, 0, 64, 0, 64, 17, 48, 188, 10, 0, 0, 1, 255, 255, 255, 255,
        0, 68, 0, 67, 0, 13, 1, 1, 1, 2, 3, 4, 5] 33 none
      (by decide) (by decide) (by decide) (by decide)).2.1 (by decide) (by decide)⟩

/-- C7. `valid_udp_packet` returns `-1` when `data_len` is smaller than
`sizeof(struct ip)`, when it is larger than `sizeof(struct udp_dhcp_packet)`,
and when the IP total-length field of the buffer, read big-endian, is larger
than `data_len`, whatever the checksums in the buffer are.  In the third case
the buffer holds the `data_len` octets the caller announces. -/
theorem valid_udp_packet_bad_length (T : Target) (uninit : Nat → Byte) (data : List Byte)
    (data_len : Nat) (from_addr : Option in_addr)
    (h : data_len < sizeof_ip ∨ sizeof_udp_dhcp_packet T < data_len ∨
      (data_len ≤ data.length ∧ data_len < load16_be data off_ip_len)) :
    (valid_udp_packet T uninit data data_len from_addr).ret = -1 := by
  rcases valid_udp_packet_ret_cases T uninit data data_len from_addr with h0 | h0
  · rw [valid_udp_packet_ret_zero_iff] at h0
    obtain ⟨a1, a2, _, a4, _⟩ := h0
    have e20 : sizeof_ip = 20 := rfl
    rcases h with h | h | ⟨hbuf, h⟩
    · omega
    · omega
    · rw [ntohs_load16, packet_copy_load8 T uninit data data_len _ hbuf a2
        (by unfold off_ip_len; omega), packet_copy_load8 T uninit data data_len _ hbuf a2
        (by unfold off_ip_len; omega)] at a4
      unfold load16_be at h
      omega
  · exact h0

theorem valid_udp_packet_bad_length_witness :
    (valid_udp_packet ⟨true, 548, 68, 67⟩ (fun _ => 0xAA)
        [69, 16, 0, 33, 0, 0, 64, 0, 64, 17, 48, 188, 10, 0, 0, 1, 255, 255, 255, 255,
          0, 68, 0, 67, 0, 13, 0, 0, 1, 2, 3, 4, 5] 32 none).ret = -1 :=
  valid_udp_packet_bad_length ⟨true, 548, 68, 67⟩ (fun _ => 0xAA)
    [69, 16, 0, 33, 0, 0, 64, 0, 64, 17, 48, 188, 10, 0, 0, 1, 255, 255, 255, 255,
      0, 68, 0, 67, 0, 13, 0, 0, 1, 2, 3, 4, 5] 32 none
    (Or.inr (Or.inr ⟨by decide, by decide⟩))

/-- C8. With a non-null `from`, `valid_udp_packet` leaves in `*from` the
unspecified address `INADDR_ANY` when `data_len` is smaller than
`sizeof(struct ip)`, and the source address field of the buffer (octets 12 to
15) otherwise, whatever value it returns.  The buffer holds the `data_len`
octets the caller announces. -/
theorem valid_udp_packet_from_output (T : Target) (uninit : Nat → Byte) (data : List Byte)
    (data_len : Nat) (old : in_addr) (hbuf : data_len ≤ data.length) :
    (valid_udp_packet T uninit data data_len (some old)).from_addr =
      some (if data_len < sizeof_ip then INADDR_ANY else load_addr data off_ip_src) := by
  rw [valid_udp_packet_from]
  by_cases h : data_len < sizeof_ip
  · rw [if_pos h, if_pos h]
    rfl
  · rw [if_neg h, if_neg h]
    have e20 : sizeof_ip = 20 := rfl
    have hsz : sizeof_udp_dhcp_packet T = 28 + T.sizeof_dhcp_message := rfl
    have hl : ∀ i, i < 20 → load8 (packet_copy T uninit data data_len) i = load8 data i := by
      intro i hi
      unfold packet_copy load8
      rw [store_zero_eq, List.getD_eq_getElem?_getD, List.getD_eq_getElem?_getD,
        List.getElem?_append_left (by simp [List.length_take]; omega),
        List.getElem?_take_of_lt (by omega)]
    simp only [Option.map_some', load_addr, off_ip_src, hl 12 (by decide), hl 13 (by decide),
      hl 14 (by decide), hl 15 (by decide)]

theorem valid_udp_packet_from_output_witness :
    (valid_udp_packet ⟨true, 548, 68, 67⟩ (fun _ => 0xAA)
        [69, 16, 0, 33, 0, 0, 64, 0, 64, 17, 48, 188, 10, 0, 0, 1, 255, 255, 255, 255,
          0, 68, 0, 67, 0, 13, 1, 1, 1, 2, 3, 4, 5] 33 (some ⟨9, 9, 9, 9⟩)).from_addr =
      some (if 33 < sizeof_ip then INADDR_ANY else load_addr
        [69, 16, 0, 33, 0, 0, 64, 0, 64, 17, 48, 188, 10, 0, 0, 1, 255, 255, 255, 255,
          0, 68, 0, 67, 0, 13, 1, 1, 1, 2, 3, 4, 5] off_ip_src) :=
  valid_udp_packet_from_output ⟨true, 548, 68, 67⟩ (fun _ => 0xAA)
    [69, 16, 0, 33, 0, 0, 64, 0, 64, 17, 48, 188, 10, 0, 0, 1, 255, 255, 255, 255,
      0, 68, 0, 67, 0, 13, 1, 1, 1, 2, 3, 4, 5] 33 ⟨9, 9, 9, 9⟩ (by decide)

/-- C20. For `cidr < 1` and for `cidr > 32`, `inet_cidrtoaddr` returns `-1`,
sets `errno` to `EINVAL` and leaves `*addr` as it was. -/
theorem inet_cidrtoaddr_invalid (cidr : Int) (addr : in_addr) (h : cidr < 1 ∨ cidr > 32) :
    inet_cidrtoaddr cidr addr = { ret := -1, addr := addr, errno_EINVAL := true } := by
  unfold inet_cidrtoaddr
  rw [if_pos h]

theorem inet_cidrtoaddr_invalid_witness :
    inet_cidrtoaddr 0 ⟨192, 168, 0, 1⟩ =
      { ret := -1, addr := ⟨192, 168, 0, 1⟩, errno_EINVAL := true } ∧
    inet_cidrtoaddr (-5) ⟨192, 168, 0, 1⟩ =
      { ret := -1, addr := ⟨192, 168, 0, 1⟩, errno_EINVAL := true } ∧
    inet_cidrtoaddr 33 ⟨192, 168, 0, 1⟩ =
      { ret := -1, addr := ⟨192, 168, 0, 1⟩, errno_EINVAL := true } :=
  ⟨inet_cidrtoaddr_invalid 0 ⟨192, 168, 0, 1⟩ (Or.inl (by decide)),
   inet_cidrtoaddr_invalid (-5) ⟨192, 168, 0, 1⟩ (Or.inl (by decide)),
   inet_cidrtoaddr_invalid 33 ⟨192, 168, 0, 1⟩ (Or.inr (by decide))⟩

/-- C18. For `1 <= cidr <= 32`, `inet_cidrtoaddr` returns `0`, does not touch
`errno`, and writes the address whose 32 bits, read in network byte order, are
`cidr` one-bits followed by `32 - cidr` zero-bits: bit `i`, counted from the
most significant, is set exactly when `i < cidr`. -/
theorem inet_cidrtoaddr_netmask (cidr : Int) (old : in_addr) (h1 : 1 ≤ cidr) (h2 : cidr ≤ 32) :
    (inet_cidrtoaddr cidr old).ret = 0 ∧
    (inet_cidrtoaddr cidr old).errno_EINVAL = false ∧
    ∀ i, i < 32 →
      (be32 (inet_cidrtoaddr cidr old).addr).testBit (31 - i) = decide ((i : Int) < cidr) := by
  rw [inet_cidrtoaddr_old cidr old h1 h2]
  interval_cases cidr <;> decide

theorem inet_cidrtoaddr_netmask_witness :
    (inet_cidrtoaddr 24 ⟨9, 9, 9, 9⟩).addr = ⟨255, 255, 255, 0⟩ ∧
    (inet_cidrtoaddr 25 ⟨9, 9, 9, 9⟩).addr = ⟨255, 255, 255, 128⟩ ∧
    (inet_cidrtoaddr 24 ⟨9, 9, 9, 9⟩).ret = 0 ∧
    (be32 (inet_cidrtoaddr 24 ⟨9, 9, 9, 9⟩).addr).testBit (31 - 23) = decide (((23 : Nat) : Int) < 24) :=
  ⟨by decide, by decide, (inet_cidrtoaddr_netmask 24 ⟨9, 9, 9, 9⟩ (by decide) (by decide)).1,
   (inet_cidrtoaddr_netmask 24 ⟨9, 9, 9, 9⟩ (by decide) (by decide)).2.2 23 (by decide)⟩

/-- C19. For `1 <= cidr <= 32`, `inet_ntocidr` of the address written by
`inet_cidrtoaddr(cidr)` returns `cidr`, and `inet_ntocidr` of the all-zero
address returns `0`. -/
theorem inet_ntocidr_inet_cidrtoaddr (T : Target) (cidr : Int) (old : in_addr)
    (h1 : 1 ≤ cidr) (h2 : cidr ≤ 32) :
    inet_ntocidr T (inet_cidrtoaddr cidr old).addr = some cidr ∧
    inet_ntocidr T ⟨0, 0, 0, 0⟩ = some 0 := by
  rw [inet_cidrtoaddr_old cidr old h1 h2, inet_ntocidr_eq, inet_ntocidr_eq]
  interval_cases cidr <;> decide

theorem inet_ntocidr_inet_cidrtoaddr_witness :
    inet_ntocidr ⟨true, 548, 68, 67⟩ (inet_cidrtoaddr 25 ⟨9, 9, 9, 9⟩).addr = some 25 ∧
    inet_ntocidr ⟨true, 548, 68, 67⟩ ⟨0, 0, 0, 0⟩ = some 0 :=
  inet_ntocidr_inet_cidrtoaddr ⟨true, 548, 68, 67⟩ 25 ⟨9, 9, 9, 9⟩ (by decide) (by decide)

/-- C14. The UDP checksum field in the frame of `make_udp_packet` holds
`checksum` of the UDP pseudo-header (source address, destination address as
written in the frame, a zero octet, protocol 17, UDP length) followed by the UDP
header with a zero checksum field and the payload; `checksum` over the whole
object with the partially filled IP header and `ip_len` set to the UDP length
has the same value.  `hL` is the precondition of the `memcpy`, `hD` says that
`struct udp_dhcp_packet` fits the `uint16_t` length argument of `checksum`. -/
theorem make_udp_packet_udp_checksum (T : Target) (data : List Byte) (source dest : in_addr)
    (hL : data.length ≤ T.sizeof_dhcp_message) (hD : sizeof_udp_dhcp_packet T ≤ 65535) :
    [load8 (make_udp_packet T data source dest).1 off_uh_sum,
     load8 (make_udp_packet T data source dest).1 (off_uh_sum + 1)] =
      bytes16 T (checksum T
        (udp_pseudo_datagram source (load_addr (make_udp_packet T data source dest).1 off_ip_dst)
          T.DHCP_CLIENT_PORT T.DHCP_SERVER_PORT data) (12 + sizeof_udphdr + data.length)) ∧
    checksum T (udp_stage T data source dest) (sizeof_udp_dhcp_packet T) =
      checksum T
        (udp_pseudo_datagram source (load_addr (make_udp_packet T data source dest).1 off_ip_dst)
          T.DHCP_CLIENT_PORT T.DHCP_SERVER_PORT data) (12 + sizeof_udphdr + data.length) := by
  rw [make_udp_packet_eq]
  have hdst : load_addr (frame_of T data source dest) off_ip_dst = ip_dst_of dest := rfl
  have h26 : load8 (frame_of T data source dest) off_uh_sum =
      ckb0 T (udp_stage T data source dest) (sizeof_udp_dhcp_packet T) := rfl
  have h27 : load8 (frame_of T data source dest) (off_uh_sum + 1) =
      ckb1 T (udp_stage T data source dest) (sizeof_udp_dhcp_packet T) := rfl
  simp only [hdst, h26, h27]
  rw [← bytes16_checksum, udp_stage_checksum_pseudo T data source dest hL hD]
  exact ⟨rfl, rfl⟩

theorem make_udp_packet_udp_checksum_witness :
    [load8 (make_udp_packet ⟨true, 548, 68, 67⟩ [1, 2, 3] ⟨10, 0, 0, 1⟩ ⟨0, 0, 0, 0⟩).1 off_uh_sum,
     load8 (make_udp_packet ⟨true, 548, 68, 67⟩ [1, 2, 3] ⟨10, 0, 0, 1⟩ ⟨0, 0, 0, 0⟩).1
       (off_uh_sum + 1)] =
      bytes16 ⟨true, 548, 68, 67⟩ (checksum ⟨true, 548, 68, 67⟩
        (udp_pseudo_datagram ⟨10, 0, 0, 1⟩
          (load_addr (make_udp_packet ⟨true, 548, 68, 67⟩ [1, 2, 3] ⟨10, 0, 0, 1⟩ ⟨0, 0, 0, 0⟩).1
            off_ip_dst)
          68 67 [1, 2, 3]) (12 + sizeof_udphdr + ([1, 2, 3] : List Byte).length)) :=
  (make_udp_packet_udp_checksum ⟨true, 548, 68, 67⟩ [1, 2, 3] ⟨10, 0, 0, 1⟩ ⟨0, 0, 0, 0⟩
    (by decide) (by decide)).1

/-- C12. In a DHCPv6 message made of the 4-octet header and `N` options, each
encoded as 2-octet code, 2-octet big-endian length and that many data octets,
the cursor obtained from `D6_FIRST_OPTION` by `k` applications of
`D6_NEXT_OPTION` stands on option `k` for every `k < N`: code and length read
there are those of option `k`, `D6_OPTION_DATA` is the cursor plus 4 and the
data of option `k` starts there, all inside the buffer.  After `N` steps the
cursor is the end of the buffer; for `N = 0` this is the first cursor. -/
theorem d6_option_iteration (T : Target) (hdr : List Byte) (os : List d6_option)
    (hh : hdr.length = 4)
    (hwf : ∀ o ∈ os, o.code ≤ 65535 ∧ o.data.length ≤ 65535) :
    (∀ k (hk : k < os.length),
      load16_be (hdr ++ encode_d6_options os)
          (Nat.iterate (D6_NEXT_OPTION T (hdr ++ encode_d6_options os)) k (D6_FIRST_OPTION 0)) =
        (os.get ⟨k, hk⟩).code ∧
      load16_be (hdr ++ encode_d6_options os)
          (Nat.iterate (D6_NEXT_OPTION T (hdr ++ encode_d6_options os)) k (D6_FIRST_OPTION 0) +
            off_d6_len) = (os.get ⟨k, hk⟩).data.length ∧
      D6_OPTION_DATA
          (Nat.iterate (D6_NEXT_OPTION T (hdr ++ encode_d6_options os)) k (D6_FIRST_OPTION 0)) =
        Nat.iterate (D6_NEXT_OPTION T (hdr ++ encode_d6_options os)) k (D6_FIRST_OPTION 0) + 4 ∧
      ((hdr ++ encode_d6_options os).drop (D6_OPTION_DATA
          (Nat.iterate (D6_NEXT_OPTION T (hdr ++ encode_d6_options os)) k
            (D6_FIRST_OPTION 0)))).take (os.get ⟨k, hk⟩).data.length = (os.get ⟨k, hk⟩).data ∧
      D6_OPTION_DATA
          (Nat.iterate (D6_NEXT_OPTION T (hdr ++ encode_d6_options os)) k (D6_FIRST_OPTION 0)) +
        (os.get ⟨k, hk⟩).data.length ≤ (hdr ++ encode_d6_options os).length) ∧
    Nat.iterate (D6_NEXT_OPTION T (hdr ++ encode_d6_options os)) os.length (D6_FIRST_OPTION 0) =
      (hdr ++ encode_d6_options os).length := by
  have hlen : ∀ o ∈ os, o.data.length ≤ 65535 := fun o ho => (hwf o ho).2
  constructor
  · intro k hk
    rw [d6_iterate T hdr os hh hlen k (by omega)]
    obtain ⟨pre, post, hm, hp⟩ := d6_message_at hdr os k hk hh
    have hw := hwf _ (List.get_mem os k hk)
    rw [hm, ← hp]
    refine ⟨?_, ?_, rfl, ?_, ?_⟩
    · unfold load16_be
      rw [show pre.length = pre.length + 0 by omega, load8_append_right,
        show pre.length + 0 + 1 = pre.length + 1 by omega, load8_append_right]
      exact be16_val _ hw.1
    · unfold load16_be off_d6_len
      rw [load8_append_right, show pre.length + 2 + 1 = pre.length + 3 by omega,
        load8_append_right]
      exact be16_val _ hw.2
    · unfold D6_OPTION_DATA sizeof_dhcp6_option
      rw [← List.drop_drop, List.drop_left, encode_d6_option]
      simp
    · unfold D6_OPTION_DATA sizeof_dhcp6_option
      simp only [List.length_append, encode_d6_option, List.length_cons]
      omega
  · rw [d6_iterate T hdr os hh hlen os.length (Nat.le_refl _)]
    simp [d6_offset, sizeof_dhcp6_message, hh]

theorem d6_option_iteration_witness :
    Nat.iterate (D6_NEXT_OPTION ⟨true, 548, 68, 67⟩
        ([1, 0xAB, 0xCD, 0xEF] ++ encode_d6_options [⟨1, [7, 7]⟩, ⟨8, []⟩, ⟨6, [0, 23, 0, 24]⟩]))
      ([⟨1, [7, 7]⟩, ⟨8, []⟩, ⟨6, [0, 23, 0, 24]⟩] : List d6_option).length (D6_FIRST_OPTION 0) =
      ([1, 0xAB, 0xCD, 0xEF] ++
        encode_d6_options [⟨1, [7, 7]⟩, ⟨8, []⟩, ⟨6, [0, 23, 0, 24]⟩]).length :=
  (d6_option_iteration ⟨true, 548, 68, 67⟩ [1, 0xAB, 0xCD, 0xEF]
    [⟨1, [7, 7]⟩, ⟨8, []⟩, ⟨6, [0, 23, 0, 24]⟩] (by decide) (by decide)).2

/-- C13 (as stated, refuted). A 10-octet message whose only option declares 10
data octets but has 2: `D6_NEXT_OPTION` gives the cursor 18, beyond the end of
the buffer. -/
theorem d6_next_option_overrun_counterexample :
    D6_NEXT_OPTION ⟨true, 548, 68, 67⟩ [1, 0, 0, 0, 0, 1, 0, 10, 7, 7] (D6_FIRST_OPTION 0) = 18 ∧
    ([1, 0, 0, 0, 0, 1, 0, 10, 7, 7] : List Byte).length = 10 ∧
    ¬ D6_NEXT_OPTION ⟨true, 548, 68, 67⟩ [1, 0, 0, 0, 0, 1, 0, 10, 7, 7] (D6_FIRST_OPTION 0) ≤
      ([1, 0, 0, 0, 0, 1, 0, 10, 7, 7] : List Byte).length := by
  decide

/-- C13 (amended). `D6_NEXT_OPTION` checks no bound: it returns the cursor plus
4 plus the declared length read big-endian, so for an option whose declared
length extends past the end of the buffer the cursor it returns lies beyond the
end of the buffer. -/
theorem d6_next_option_unchecked (T : Target) (mem : List Byte) (o : Nat)
    (h : mem.length < o + sizeof_dhcp6_option + load16_be mem (o + off_d6_len)) :
    D6_NEXT_OPTION T mem o = o + sizeof_dhcp6_option + load16_be mem (o + off_d6_len) ∧
    mem.length < D6_NEXT_OPTION T mem o := by
  have e : D6_NEXT_OPTION T mem o = o + sizeof_dhcp6_option + load16_be mem (o + off_d6_len) :=
    D6_NEXT_OPTION_eq T mem o
  rw [e]
  exact ⟨rfl, h⟩

theorem d6_next_option_unchecked_witness :
    D6_NEXT_OPTION ⟨false, 548, 68, 67⟩ [1, 0, 0, 0, 0, 1, 0, 10, 7, 7] 4 =
      4 + sizeof_dhcp6_option + load16_be [1, 0, 0, 0, 0, 1, 0, 10, 7, 7] (4 + off_d6_len) ∧
    ([1, 0, 0, 0, 0, 1, 0, 10, 7, 7] : List Byte).length <
      D6_NEXT_OPTION ⟨false, 548, 68, 67⟩ [1, 0, 0, 0, 0, 1, 0, 10, 7, 7] 4 :=
  d6_next_option_unchecked ⟨false, 548, 68, 67⟩ [1, 0, 0, 0, 0, 1, 0, 10, 7, 7] 4 (by decide)

/-- C17. For octets `b` of length `n` with `2 <= n <= HWADDR_LEN`,
`hwaddr_ntoa(b, n)` is `n` lowercase two-digit hexadecimal octets joined by
single colons, `3n - 1` characters, and `hwaddr_aton` applied to it returns `n`
and stores exactly the octets `b`. -/
theorem hwaddr_aton_hwaddr_ntoa (H : Nat) (b : List Byte) (n : Nat) (h2 : 2 ≤ n) (hH : n ≤ H)
    (hb : b.length = n) :
    hwaddr_aton (some []) (hwaddr_ntoa H b n) =
      { ret := n, buffer := some b, errno_EINVAL := false } ∧
    hwaddr_ntoa H b n = colon_hex (b.map octet_digits) ∧
    (∀ q ∈ b.map octet_digits, is_lower_xdigit q.1 = true ∧ is_lower_xdigit q.2 = true) ∧
    (hwaddr_ntoa H b n).length = 3 * n - 1 := by
  have hne : b.map octet_digits ≠ [] := by
    intro h
    have := congrArg List.length h
    simp only [List.length_map, List.length_nil] at this
    omega
  have hlow : ∀ q ∈ b.map octet_digits,
      is_lower_xdigit q.1 = true ∧ is_lower_xdigit q.2 = true := by
    intro q hq
    obtain ⟨x, _, rfl⟩ := List.mem_map.mp hq
    have hx := x.isLt
    exact ⟨hex_digit_lower _ (by omega), hex_digit_lower _ (by omega)⟩
  rw [hwaddr_ntoa_eq H b n (by omega) hH hb]
  refine ⟨?_, rfl, hlow, ?_⟩
  · unfold hwaddr_aton
    rw [hwaddr_aton_loop_colon_hex _ _ 0 hne
      (fun q hq => ⟨is_lower_xdigit_isxdigit _ (hlow q hq).1,
        is_lower_xdigit_isxdigit _ (hlow q hq).2⟩)
      (by simp only [List.length_map]; omega)]
    have hm : List.map (fun q => strtol16 q.1 q.2) (List.map octet_digits b) = b := by
      rw [List.map_map]
      conv_rhs => rw [← List.map_id b]
      apply List.map_congr_left
      intro x _
      exact strtol16_octet_digits x
    simp only [Option.map_some', List.nil_append, hm, List.length_map, Nat.zero_add, hb]
  · rw [colon_hex_length _ hne, List.length_map, hb]

theorem hwaddr_aton_hwaddr_ntoa_witness :
    hwaddr_aton (some []) (hwaddr_ntoa 20 [0, 26, 255, 11, 171, 205] 6) =
      { ret := 6, buffer := some [0, 26, 255, 11, 171, 205], errno_EINVAL := false } ∧
    (hwaddr_ntoa 20 [0, 26, 255, 11, 171, 205] 6).length = 3 * 6 - 1 :=
  have h := hwaddr_aton_hwaddr_ntoa 20 [0, 26, 255, 11, 171, 205] 6 (by decide) (by decide)
    (by decide)
  ⟨h.1, h.2.2.2⟩

/-- C15. For a text `s` without NUL characters: `hwaddr_aton` returns a nonzero
count `n` exactly when `s` is `n >= 2` octets, each written as two hexadecimal
digits, joined by single colons; the octets stored are then the values of the
digit pairs in order; for every other text `0` is returned; and the count
returned with a `NULL` buffer is the same. -/
theorem hwaddr_aton_spec (s : List Byte) (hs : ∀ c ∈ s, c ≠ 0) :
    (∀ n, n ≠ 0 →
      ((hwaddr_aton (some []) s).ret = n ↔
        ∃ ps : List (Byte × Byte), ps.length = n ∧ 2 ≤ n ∧
          (∀ q ∈ ps, isxdigit q.1 = true ∧ isxdigit q.2 = true) ∧ s = colon_hex ps)) ∧
    (∀ ps : List (Byte × Byte), 2 ≤ ps.length →
      (∀ q ∈ ps, isxdigit q.1 = true ∧ isxdigit q.2 = true) → s = colon_hex ps →
      (hwaddr_aton (some []) s).buffer = some (ps.map (fun q => strtol16 q.1 q.2))) ∧
    ((¬ ∃ ps : List (Byte × Byte), 2 ≤ ps.length ∧
        (∀ q ∈ ps, isxdigit q.1 = true ∧ isxdigit q.2 = true) ∧ s = colon_hex ps) →
      (hwaddr_aton (some []) s).ret = 0) ∧
    (hwaddr_aton none s).ret = (hwaddr_aton (some []) s).ret := by
  have hfwd : ∀ ps : List (Byte × Byte), 2 ≤ ps.length →
      (∀ q ∈ ps, isxdigit q.1 = true ∧ isxdigit q.2 = true) → s = colon_hex ps →
      hwaddr_aton (some []) s =
        { ret := ps.length, buffer := some (ps.map (fun q => strtol16 q.1 q.2)),
          errno_EINVAL := false } := by
    intro ps h2 hx hp
    have hne : ps ≠ [] := by
      intro h
      rw [h] at h2
      simp at h2
    unfold hwaddr_aton
    rw [hp, hwaddr_aton_loop_colon_hex ps _ 0 hne hx (by omega)]
    simp
  have hbwd : (hwaddr_aton (some []) s).ret ≠ 0 →
      ∃ ps : List (Byte × Byte), 2 ≤ ps.length ∧
        (∀ q ∈ ps, isxdigit q.1 = true ∧ isxdigit q.2 = true) ∧ s = colon_hex ps := by
    intro hr
    rcases hwaddr_aton_loop_ret_ne_zero s _ 0 hs hr with ⟨_, h⟩ | ⟨ps, _, hx, hl, hp⟩
    · exact absurd rfl h
    · exact ⟨ps, by omega, hx, hp⟩
  refine ⟨?_, ?_, ?_, ?_⟩
  · intro n hn
    constructor
    · intro hr
      obtain ⟨ps, h2, hx, hp⟩ := hbwd (by rw [hr]; exact hn)
      have e := hfwd ps h2 hx hp
      rw [e] at hr
      simp only at hr
      exact ⟨ps, hr, by omega, hx, hp⟩
    · rintro ⟨ps, hl, h2, hx, hp⟩
      rw [hfwd ps (by omega) hx hp]
      exact hl
  · intro ps h2 hx hp
    rw [hfwd ps h2 hx hp]
  · intro hno
    by_contra hr
    exact hno (hbwd hr)
  · exact hwaddr_aton_loop_ret_null s _ 0

theorem hwaddr_aton_spec_witness :
    (hwaddr_aton (some []) [48, 48, 58, 49, 65, 58, 102, 102]).ret = 3 ∧
    (hwaddr_aton (some []) [48, 48, 58, 49, 65, 58, 102, 102]).buffer = some [0, 26, 255] ∧
    (hwaddr_aton none [48, 48, 58, 49, 65, 58, 102, 102]).ret =
      (hwaddr_aton (some []) [48, 48, 58, 49, 65, 58, 102, 102]).ret :=
  have hx : ∀ q ∈ ([(48, 48), (49, 65), (102, 102)] : List (Byte × Byte)),
      isxdigit q.1 = true ∧ isxdigit q.2 = true := by
    simp only [List.forall_mem_cons, List.not_mem_nil, false_imp_iff, implies_true, and_true]
    decide
  have h := hwaddr_aton_spec [48, 48, 58, 49, 65, 58, 102, 102] (by
    simp only [List.forall_mem_cons, List.not_mem_nil, false_imp_iff, implies_true, and_true]
    decide)
  ⟨(h.1 3 (by decide)).mpr ⟨[(48, 48), (49, 65), (102, 102)], by decide, by decide, hx,
      by decide⟩,
   h.2.1 [(48, 48), (49, 65), (102, 102)] (by decide) hx (by decide),
   h.2.2.2⟩

set_option maxRecDepth 100000 in
/-- C11 (as stated, refuted). With `HWADDR_LEN = 20`, the text of 21 octets
`00:00:...:00` is well formed and lowercase, `hwaddr_aton` returns 21 for it,
and `hwaddr_ntoa` of the octets stored and that count is the text of the first
20 octets only, 59 characters instead of 62. -/
theorem hwaddr_roundtrip_counterexample :
    (∀ q ∈ List.replicate 21 ((48 : Byte), (48 : Byte)),
      is_lower_xdigit q.1 = true ∧ is_lower_xdigit q.2 = true) ∧
    (hwaddr_aton (some []) (colon_hex (List.replicate 21 (48, 48)))).ret = 21 ∧
    (hwaddr_ntoa 20
        ((hwaddr_aton (some []) (colon_hex (List.replicate 21 (48, 48)))).buffer.getD [])
        (hwaddr_aton (some []) (colon_hex (List.replicate 21 (48, 48)))).ret).length = 59 ∧
    (colon_hex (List.replicate 21 ((48 : Byte), (48 : Byte)))).length = 62 ∧
    hwaddr_ntoa 20
        ((hwaddr_aton (some []) (colon_hex (List.replicate 21 (48, 48)))).buffer.getD [])
        (hwaddr_aton (some []) (colon_hex (List.replicate 21 (48, 48)))).ret ≠
      colon_hex (List.replicate 21 (48, 48)) := by
  refine ⟨?_, by decide, by decide, by decide, by decide⟩
  intro q hq
  rw [List.eq_of_mem_replicate hq]
  decide

/-- C11 (amended). For a well-formed lowercase colon-hex text of at least two
and at most `HWADDR_LEN` octets, `hwaddr_aton` followed by `hwaddr_ntoa` on the
octets stored and the count returned gives the text back. -/
theorem hwaddr_ntoa_hwaddr_aton (H : Nat) (ps : List (Byte × Byte))
    (hlow : ∀ q ∈ ps, is_lower_xdigit q.1 = true ∧ is_lower_xdigit q.2 = true)
    (h2 : 2 ≤ ps.length) (hH : ps.length ≤ H) :
    hwaddr_ntoa H ((hwaddr_aton (some []) (colon_hex ps)).buffer.getD [])
      (hwaddr_aton (some []) (colon_hex ps)).ret = colon_hex ps := by
  have hne : ps ≠ [] := by
    intro h
    rw [h] at h2
    simp at h2
  unfold hwaddr_aton
  rw [hwaddr_aton_loop_colon_hex ps _ 0 hne
    (fun q hq => ⟨is_lower_xdigit_isxdigit _ (hlow q hq).1,
      is_lower_xdigit_isxdigit _ (hlow q hq).2⟩) (by omega)]
  simp only [Option.map_some', List.nil_append, Option.getD_some, Nat.zero_add]
  rw [hwaddr_ntoa_eq H _ ps.length (by omega) hH (by simp), List.map_map]
  congr 1
  conv_rhs => rw [← List.map_id ps]
  apply List.map_congr_left
  intro q hq
  exact octet_digits_strtol16 q (hlow q hq).1 (hlow q hq).2

theorem hwaddr_ntoa_hwaddr_aton_witness :
    hwaddr_ntoa 20
      ((hwaddr_aton (some []) (colon_hex [(48, 48), (49, 97), (102, 102)])).buffer.getD [])
      (hwaddr_aton (some []) (colon_hex [(48, 48), (49, 97), (102, 102)])).ret =
      colon_hex [(48, 48), (49, 97), (102, 102)] :=
  hwaddr_ntoa_hwaddr_aton 20 [(48, 48), (49, 97), (102, 102)]
    (by
      simp only [List.forall_mem_cons, List.not_mem_nil, false_imp_iff, implies_true, and_true]
      decide)
    (by decide) (by decide)

set_option maxRecDepth 100000 in
/-- C16 (the code at the failing input). `valid_udp_packet` accepts 28
received octets whose IP total-length field is 20, and `get_udp_data` then
returns `20 - 28 = -8` for the same buffer: a negative payload length. -/
theorem valid_udp_packet_accepts_negative_payload :
    (valid_udp_packet ⟨true, 548, 68, 67⟩ (fun _ => 0xAA) short_ip_len_frame 28 none).ret = 0 ∧
    (get_udp_data ⟨true, 548, 68, 67⟩ short_ip_len_frame).ret = -8 ∧
    short_ip_len_frame.length = sizeof_udp_dhcp_packet ⟨true, 548, 68, 67⟩ := by
  decide

/-- C21. `get_netmask` of an address given in network byte order returns, as
an address in network byte order, the classful default netmask: `255.0.0.0`
when the top bit of the first octet is 0 (class A) and the address is not
all-zero, `255.255.0.0` when the top two bits are `10` (class B),
`255.255.255.0` when the top three bits are `110` (class C); it returns `0` for
the all-zero address and for every address whose top three bits are `111`
(class D and E). -/
theorem get_netmask_classful (T : Target) (a : in_addr) :
    (a = ⟨0, 0, 0, 0⟩ → get_netmask T (a.s_addr T) = 0) ∧
    (a ≠ ⟨0, 0, 0, 0⟩ → a.s0.val / 128 = 0 →
      in_addr.of_s_addr T (get_netmask T (a.s_addr T)) = ⟨255, 0, 0, 0⟩) ∧
    (a.s0.val / 64 = 2 →
      in_addr.of_s_addr T (get_netmask T (a.s_addr T)) = ⟨255, 255, 0, 0⟩) ∧
    (a.s0.val / 32 = 6 →
      in_addr.of_s_addr T (get_netmask T (a.s_addr T)) = ⟨255, 255, 255, 0⟩) ∧
    (a.s0.val / 32 = 7 → get_netmask T (a.s_addr T) = 0) := by
  have hs0 := a.s0.isLt
  have hnz : 0 < a.s0.val → a ≠ ⟨0, 0, 0, 0⟩ := by
    intro h e
    rw [e] at h
    exact absurd h (by decide)
  refine ⟨?_, ?_, ?_, ?_, ?_⟩
  · intro h
    unfold get_netmask
    rw [if_pos ((s_addr_eq_zero T a).mpr h)]
  · intro h0 h1
    rw [get_netmask_eq, if_neg h0, if_pos h1]
  · intro h
    rw [get_netmask_eq, if_neg (hnz (by omega)), if_neg (by omega), if_pos h]
  · intro h
    rw [get_netmask_eq, if_neg (hnz (by omega)), if_neg (by omega), if_neg (by omega), if_pos h]
  · intro h
    have hne : ¬ a.s_addr T = 0 := fun e => hnz (by omega) ((s_addr_eq_zero T a).mp e)
    unfold get_netmask
    simp only [htonl_s_addr, in_class_a, in_class_b, in_class_c, decide_eq_true_eq]
    rw [if_neg hne, if_neg (by omega), if_neg (by omega), if_neg (by omega)]

theorem get_netmask_classful_witness :
    in_addr.of_s_addr ⟨true, 548, 68, 67⟩
      (get_netmask ⟨true, 548, 68, 67⟩ (in_addr.s_addr ⟨true, 548, 68, 67⟩ ⟨10, 1, 2, 3⟩)) =
        ⟨255, 0, 0, 0⟩ ∧
    in_addr.of_s_addr ⟨true, 548, 68, 67⟩
      (get_netmask ⟨true, 548, 68, 67⟩ (in_addr.s_addr ⟨true, 548, 68, 67⟩ ⟨172, 16, 0, 1⟩)) =
        ⟨255, 255, 0, 0⟩ ∧
    in_addr.of_s_addr ⟨false, 548, 68, 67⟩
      (get_netmask ⟨false, 548, 68, 67⟩ (in_addr.s_addr ⟨false, 548, 68, 67⟩ ⟨192, 168, 1, 1⟩)) =
        ⟨255, 255, 255, 0⟩ ∧
    get_netmask ⟨true, 548, 68, 67⟩ (in_addr.s_addr ⟨true, 548, 68, 67⟩ ⟨224, 0, 0, 1⟩) = 0 ∧
    get_netmask ⟨true, 548, 68, 67⟩ (in_addr.s_addr ⟨true, 548, 68, 67⟩ ⟨0, 0, 0, 0⟩) = 0 :=
  ⟨(get_netmask_classful ⟨true, 548, 68, 67⟩ ⟨10, 1, 2, 3⟩).2.1 (by decide) (by decide),
   (get_netmask_classful ⟨true, 548, 68, 67⟩ ⟨172, 16, 0, 1⟩).2.2.1 (by decide),
   (get_netmask_classful ⟨false, 548, 68, 67⟩ ⟨192, 168, 1, 1⟩).2.2.2.1 (by decide),
   (get_netmask_classful ⟨true, 548, 68, 67⟩ ⟨224, 0, 0, 1⟩).2.2.2.2 (by decide),
   (get_netmask_classful ⟨true, 548, 68, 67⟩ ⟨0, 0, 0, 0⟩).1 rfl⟩

end Dhcpcd
